import Mathlib

set_option maxHeartbeats 1000000

/-!
Verification of the sql-tap proxy core: a shallow embedding of the Go
sources (query normalizer, N+1 detector, orchestrator record keying,
PostgreSQL interceptor capture, MySQL interceptor state machine) together
with theorems checking the natural-language specification against them.

Modelling conventions:
* `time.Time` and `time.Duration` are embedded as `Int` (nanoseconds);
  `a.Before b` is `a < b`, `t.Sub last >= cooldown` is `cooldown ≤ t - last`.
* Go maps with zero-value reads (`map[string][]time.Time`) are embedded as
  total functions returning the zero value; maps read with the `, ok`
  idiom (`map[string]time.Time`) return `Option`.
* Go strings are embedded as Lean `String`/`List Char`.  The normalizer
  indexes bytes, but none of its byte tests (digit, quote, `$`, space,
  boundary set) can match a UTF-8 continuation byte, so the byte-level
  loop and the character-level loop coincide on every string.
-/

namespace proxy

/-- `Op` from proxy/proxy.go. -/
inductive Op where
  | Query
  | Exec
  | Prepare
  | Bind
  | Execute
  | Begin
  | Commit
  | Rollback
deriving DecidableEq, Repr, Inhabited

/-- `Event` from proxy/proxy.go (fields used by the core). -/
structure Event where
  ID : String := ""
  Op : Op := .Query
  Query : String := ""
  Args : List String := []
  StartTime : Int := 0
  Duration : Int := 0
  RowsAffected : Int := 0
  Error : String := ""
  TxID : String := ""
  NPlus1 : Bool := false
  NormalizedQuery : String := ""
deriving DecidableEq, Repr, Inhabited

end proxy

namespace strutil

/-- `unicode.IsSpace` restricted to ASCII, as used by
`strings.TrimSpace`. -/
def isGoSpace (c : Char) : Bool :=
  c = ' ' || c = '\t' || c = '\n' || c = Char.ofNat 11 || c = Char.ofNat 12 || c = '\r'

/-- `strings.TrimSpace` (ASCII fragment). -/
def trimSpace (s : String) : String :=
  ⟨((s.toList.dropWhile isGoSpace).reverse.dropWhile isGoSpace).reverse⟩

/-- ASCII uppercase of one character (`unicode.ToUpper` fragment). -/
def upperChar (c : Char) : Char :=
  if 'a' ≤ c && c ≤ 'z' then Char.ofNat (c.toNat - 32) else c

/-- `strings.ToUpper` (ASCII fragment). -/
def toUpper (s : String) : String := ⟨s.toList.map upperChar⟩

/-- `strings.HasPrefix`. -/
def startsWith (s pre : String) : Bool := pre.toList.isPrefixOf s.toList

end strutil

namespace query

/-- `isDigit` from query/normalize.go. -/
def isDigit (c : Char) : Bool := '0' ≤ c && c ≤ '9'

/-- `isSpace` from query/normalize.go. -/
def isSpace (c : Char) : Bool := c = ' ' || c = '\t' || c = '\n' || c = '\r'

/-- `isNumBoundary` from query/normalize.go. -/
def isNumBoundary (c : Char) : Bool :=
  isSpace c || c = ',' || c = '(' || c = ')' || c = '=' ||
    c = '<' || c = '>' || c = '+' || c = '-' ||
    c = '*' || c = '/' || c = ';'

/-- The scan of `normalizeString` from query/normalize.go: given the
characters after the opening quote, return the characters after the
literal (doubled quotes `''` are escapes; an unterminated literal consumes
the rest of the input). -/
def skipStringLit : List Char → List Char
  | [] => []
  | '\'' :: '\'' :: rest => skipStringLit rest
  | '\'' :: rest => rest
  | _ :: rest => skipStringLit rest

/-- The scan of `normalizeNumber` from query/normalize.go: given the
characters after the leading digit, consume digits and dots; succeed
(returning the unconsumed suffix, which starts with the boundary
character) iff the run is followed by a numeric boundary or end of
input. -/
def numScan : List Char → Option (List Char)
  | [] => some []
  | c :: rest =>
    if isDigit c || c = '.' then numScan rest
    else if isNumBoundary c then some (c :: rest)
    else none

theorem dropWhile_length_le (p : α → Bool) : ∀ l : List α, (l.dropWhile p).length ≤ l.length
  | [] => le_refl _
  | a :: rest => by
    by_cases h : p a
    · rw [List.dropWhile_cons_of_pos h]
      exact le_trans (dropWhile_length_le p rest) (by simp)
    · rw [List.dropWhile_cons_of_neg (by simpa using h)]

theorem skipStringLit_length_le : ∀ l : List Char, (skipStringLit l).length ≤ l.length
  | [] => le_refl _
  | '\'' :: '\'' :: rest => by
    have h := skipStringLit_length_le rest
    simp only [skipStringLit, List.length_cons]
    omega
  | c :: rest => by
    by_cases hc : c = '\''
    · subst hc
      match rest with
      | [] => simp [skipStringLit]
      | d :: rest' =>
        by_cases hd : d = '\''
        · subst hd
          have h := skipStringLit_length_le rest'
          simp only [skipStringLit, List.length_cons]
          omega
        · have : skipStringLit ('\'' :: d :: rest') = d :: rest' := by
            conv_lhs => rw [skipStringLit.eq_def]
            simp [hd]
          rw [this]
          simp
    · have h := skipStringLit_length_le rest
      have : skipStringLit (c :: rest) = skipStringLit rest := by
        conv_lhs => rw [skipStringLit.eq_def]
        rcases rest with _ | ⟨d, rest'⟩ <;> simp [hc]
      rw [this]
      simp
      omega

theorem numScan_length_le : ∀ l l' : List Char, numScan l = some l' → l'.length ≤ l.length
  | [], l', h => by simp [numScan] at h; simp [← h]
  | c :: rest, l', h => by
    by_cases h1 : isDigit c || c = '.'
    · simp [numScan, h1] at h
      exact le_trans (numScan_length_le rest l' h) (by simp)
    · by_cases h2 : isNumBoundary c
      · simp [numScan, h1, h2] at h
        simp [← h]
      · simp [numScan, h1, h2] at h

/-- Whether the next input character is a digit (`i+1 < len(sql) &&
isDigit(sql[i+1])` in query/normalize.go). -/
def headIsDigit : List Char → Bool
  | [] => false
  | c :: _ => isDigit c

/-- The main loop of `Normalize` from query/normalize.go.

Arguments beyond the remaining input:
* `prevB`: whether the position is at a numeric boundary, i.e.
  `i == 0 || isNumBoundary(sql[i-1])`.  The previous input byte is a
  closing quote after a string literal, the last digit after a `$N`
  parameter, and the last digit-or-dot after a replaced number, so in
  those cases the boundary flag is `false`.
* `prevSpace`: the `prevSpace` flag of the source.
* `started`: whether anything has been written (`b.Len() > 0`). -/
def normRec : Nat → List Char → Bool → Bool → Bool → List Char
  | 0, _, _, _, _ => []
  | _ + 1, [], _, _, _ => []
  | fuel + 1, c :: rest, prevB, prevSpace, started =>
    if c = '\'' then
      '\'' :: '?' :: '\'' :: normRec fuel (skipStringLit rest) false false true
    else if c = '$' && headIsDigit rest then
      '$' :: rest.takeWhile isDigit ++ normRec fuel (rest.dropWhile isDigit) false false true
    else if isDigit c && prevB then
      match numScan rest with
      | some rest2 => '?' :: normRec fuel rest2 false false true
      | none => c :: normRec fuel rest (isNumBoundary c) false true
    else if isSpace c then
      if !prevSpace && started then ' ' :: normRec fuel rest true true true
      else normRec fuel rest true prevSpace started
    else
      c :: normRec fuel rest (isNumBoundary c) false true

/-- The loop on a given input: every iteration of the source loop
advances `i` by at least one, so `l.length` rounds of `normRec` run the
loop to completion (`normRec_fuel_irrel` below makes this exact). -/
def normChars (l : List Char) (prevB prevSpace started : Bool) : List Char :=
  normRec l.length l prevB prevSpace started

/-- `strings.TrimRight(·, " ")` as used by `Normalize`. -/
def trimRightSpaces (l : List Char) : List Char :=
  (l.reverse.dropWhile (· = ' ')).reverse

/-- `Normalize` from query/normalize.go. -/
def Normalize (s : String) : String :=
  if s = "" then "" else ⟨trimRightSpaces (normChars s.toList true false false)⟩

theorem normRec_fuel_irrel :
    ∀ f g : Nat, ∀ l : List Char, ∀ pB pS st : Bool, l.length ≤ f → l.length ≤ g →
      normRec f l pB pS st = normRec g l pB pS st := by
  intro f
  induction f using Nat.strong_induction_on with
  | _ f ih =>
    intro g l pB pS st hf hg
    cases l with
    | nil => cases f <;> cases g <;> rfl
    | cons c rest =>
    cases f with
    | zero => simp at hf
    | succ f' =>
    cases g with
    | zero => simp at hg
    | succ g' =>
      simp only [List.length_cons, Nat.add_le_add_iff_right] at hf hg
      simp only [normRec]
      have hskip := le_trans (skipStringLit_length_le rest) hf
      have hskip' := le_trans (skipStringLit_length_le rest) hg
      have hdrop := le_trans (dropWhile_length_le isDigit rest) hf
      have hdrop' := le_trans (dropWhile_length_le isDigit rest) hg
      split
      · rw [ih f' (Nat.lt_succ_self _) g' _ _ _ _ hskip hskip']
      · split
        · rw [ih f' (Nat.lt_succ_self _) g' _ _ _ _ hdrop hdrop']
        · split
          · split
            · next rest2 hn =>
              have h2 := le_trans (numScan_length_le rest rest2 hn) hf
              have h2' := le_trans (numScan_length_le rest rest2 hn) hg
              rw [ih f' (Nat.lt_succ_self _) g' _ _ _ _ h2 h2']
            · rw [ih f' (Nat.lt_succ_self _) g' _ _ _ _ hf hg]
          · split
            · split
              · rw [ih f' (Nat.lt_succ_self _) g' _ _ _ _ hf hg]
              · rw [ih f' (Nat.lt_succ_self _) g' _ _ _ _ hf hg]
            · rw [ih f' (Nat.lt_succ_self _) g' _ _ _ _ hf hg]

theorem normRec_eq_normChars (f : Nat) (l : List Char) (pB pS st : Bool)
    (h : l.length ≤ f) : normRec f l pB pS st = normChars l pB pS st :=
  normRec_fuel_irrel f l.length l pB pS st h (le_refl _)

/-- The one-step unfolding of the loop in terms of `normChars` itself. -/
theorem normChars_cons (c : Char) (rest : List Char) (pB pS st : Bool) :
    normChars (c :: rest) pB pS st =
      (if c = '\'' then
        '\'' :: '?' :: '\'' :: normChars (skipStringLit rest) false false true
      else if c = '$' && headIsDigit rest then
        '$' :: rest.takeWhile isDigit ++ normChars (rest.dropWhile isDigit) false false true
      else if isDigit c && pB then
        match numScan rest with
        | some rest2 => '?' :: normChars rest2 false false true
        | none => c :: normChars rest (isNumBoundary c) false true
      else if isSpace c then
        if !pS && st then ' ' :: normChars rest true true true
        else normChars rest true pS st
      else
        c :: normChars rest (isNumBoundary c) false true) := by
  show normRec (rest.length + 1) (c :: rest) pB pS st = _
  cases hns : numScan rest with
  | none =>
    simp only [normRec, hns,
      normRec_eq_normChars _ _ _ _ _ (skipStringLit_length_le rest),
      normRec_eq_normChars _ _ _ _ _ (dropWhile_length_le isDigit rest),
      normRec_eq_normChars _ _ _ _ _ (le_refl rest.length)]
  | some rest2 =>
    simp only [normRec, hns,
      normRec_eq_normChars _ _ _ _ _ (skipStringLit_length_le rest),
      normRec_eq_normChars _ _ _ _ _ (dropWhile_length_le isDigit rest),
      normRec_eq_normChars _ _ _ _ _ (numScan_length_le rest rest2 hns),
      normRec_eq_normChars _ _ _ _ _ (le_refl rest.length)]

end query

namespace detect

/-- `Alert` from detect/detect.go. -/
structure Alert where
  Query : String
  Count : Nat
deriving DecidableEq, Repr

/-- The configuration part of `Detector` from detect/detect.go
(`threshold`, `window`, `cooldown`). -/
structure Detector where
  threshold : Nat
  window : Int
  cooldown : Int
deriving DecidableEq, Repr

/-- The mutable part of `Detector`: `queries` is a Go map read at its
zero value (missing key ↦ nil slice), `lastAlert` is read with the
`, ok` idiom (missing key ↦ `none`). -/
structure DetectorState where
  queries : String → List Int
  lastAlert : String → Option Int

/-- The state made by `New` in detect/detect.go: both maps empty. -/
def initState : DetectorState := ⟨fun _ => [], fun _ => none⟩

/-- `Result` from detect/detect.go. -/
structure Result where
  Matched : Bool
  Alert : Option Alert
deriving DecidableEq, Repr

/-- The eviction loop of `Record`: drop the prefix of timestamps with
`times[start].Before(cutoff)`. -/
def evict (times : List Int) (cutoff : Int) : List Int :=
  times.dropWhile (fun ts => ts < cutoff)

/-- `Record` from detect/detect.go. -/
def Record (d : Detector) (s : DetectorState) (q : String) (t : Int) :
    Result × DetectorState :=
  if q = "" then (⟨false, none⟩, s)
  else
    let times := evict (s.queries q) (t - d.window) ++ [t]
    let s1 : DetectorState :=
      { s with queries := fun k => if k = q then times else s.queries k }
    if times.length < d.threshold then (⟨false, none⟩, s1)
    else
      match s1.lastAlert q with
      | none =>
        (⟨true, some ⟨q, times.length⟩⟩,
         { s1 with lastAlert := fun k => if k = q then some t else s1.lastAlert k })
      | some last =>
        if d.cooldown ≤ t - last then
          (⟨true, some ⟨q, times.length⟩⟩,
           { s1 with lastAlert := fun k => if k = q then some t else s1.lastAlert k })
        else (⟨true, none⟩, s1)

/-- One `Record` invocation as issued by a caller: a template and a
timestamp. -/
structure Call where
  q : String
  t : Int

/-- The sequence of `Result`s returned by successive `Record` calls. -/
def runDetector (d : Detector) : DetectorState → List Call → List Result
  | _, [] => []
  | s, c :: rest => (Record d s c.q c.t).1 :: runDetector d (Record d s c.q c.t).2 rest

/-- The detector state after successive `Record` calls. -/
def stateAfter (d : Detector) : DetectorState → List Call → DetectorState
  | s, [] => s
  | s, c :: rest => stateAfter d (Record d s c.q c.t).2 rest

end detect

namespace orch

/-- `isSelectQuery` from the daemon entry point (src/unnamed/part_004).
`strings.TrimSpace`/`strings.EqualFold` are modelled with `String.trim`
and an ASCII uppercase comparison, which agree on the ASCII queries at
issue. -/
def isSelectQuery (op : proxy.Op) (q : String) : Bool :=
  match op with
  | .Query | .Exec | .Execute =>
    let t := (strutil.trimSpace q).toList
    6 ≤ t.length && (t.take 6).map strutil.upperChar = "SELECT".toList
  | .Prepare | .Bind | .Begin | .Commit | .Rollback => false

/-- One iteration of the event loop in `run` (src/unnamed/part_004,
lines 163–181): normalize the query, invoke the detector for SELECT
events, mark `NPlus1`.  Returns the enriched event (as published to the
broker) and the new detector state. -/
def orchStep (d : detect.Detector) (s : detect.DetectorState) (ev : proxy.Event) :
    proxy.Event × detect.DetectorState :=
  let ev1 := if ev.Query ≠ "" then { ev with NormalizedQuery := query.Normalize ev.Query } else ev
  if isSelectQuery ev.Op ev.Query then
    let r := detect.Record d s ev.Query ev.StartTime
    ({ ev1 with NPlus1 := r.1.Matched }, r.2)
  else (ev1, s)

end orch

/-- The transaction-tracking slice of a connection: `activeTxID`
together with a supply of fresh transaction identifiers modelling the
successive results of `uuid.New().String()`. -/
structure TxState where
  freshTx : Nat → String
  txCount : Nat
  activeTxID : String

/-- The result type of `detectTx` in both interceptors. -/
structure TxDetectResult where
  txID : String
  op : proxy.Op
deriving DecidableEq, Repr

namespace postgres

/-- `detectTx` from proxy/postgres/conn.go. -/
def detectTx (c : TxState) (q : String) (defaultOp : proxy.Op) :
    TxDetectResult × TxState :=
  let upper := strutil.toUpper (strutil.trimSpace q)
  if strutil.startsWith upper "BEGIN" then
    let newID := c.freshTx c.txCount
    (⟨newID, .Begin⟩, { c with activeTxID := newID, txCount := c.txCount + 1 })
  else if strutil.startsWith upper "COMMIT" then
    (⟨c.activeTxID, .Commit⟩, { c with activeTxID := "" })
  else if strutil.startsWith upper "ROLLBACK" then
    (⟨c.activeTxID, .Rollback⟩, { c with activeTxID := "" })
  else
    (⟨c.activeTxID, defaultOp⟩, c)

/-- The connection state used by the PostgreSQL client-side captures. -/
structure PgConn where
  tx : TxState
  nextID : Nat

/-- `generateID` from proxy/postgres/conn.go. -/
def generateID (c : PgConn) : String × PgConn :=
  (toString (c.nextID + 1), { c with nextID := c.nextID + 1 })

/-- `handleSimpleQuery` from proxy/postgres/conn.go: build the event for
a simple `Query` message and emit it immediately (request time); `now` is
the `time.Now()` observation.  The returned list is what reaches the
event channel. -/
def handleSimpleQuery (c : PgConn) (q : String) (now : Int) :
    PgConn × List proxy.Event :=
  let r := detectTx c.tx q .Query
  let c1 := { c with tx := r.2 }
  let idc := generateID c1
  let ev : proxy.Event :=
    { ID := idc.1, Op := r.1.op, Query := q, StartTime := now, TxID := r.1.txID }
  (idc.2, [ev])

/-- `handleCommandComplete` from proxy/postgres/conn.go: the row count is
parsed and discarded; no event is emitted or mutated. -/
def handleCommandComplete (c : PgConn) : PgConn × List proxy.Event := (c, [])

end postgres

namespace mysql

/-- `detectTx` from the MySQL interceptor (src/unnamed/part_005): like the
PostgreSQL one but `START TRANSACTION` also opens. -/
def detectTx (c : TxState) (q : String) (defaultOp : proxy.Op) :
    TxDetectResult × TxState :=
  let upper := strutil.toUpper (strutil.trimSpace q)
  if strutil.startsWith upper "BEGIN" || strutil.startsWith upper "START TRANSACTION" then
    let newID := c.freshTx c.txCount
    (⟨newID, .Begin⟩, { c with activeTxID := newID, txCount := c.txCount + 1 })
  else if strutil.startsWith upper "COMMIT" then
    (⟨c.activeTxID, .Commit⟩, { c with activeTxID := "" })
  else if strutil.startsWith upper "ROLLBACK" then
    (⟨c.activeTxID, .Rollback⟩, { c with activeTxID := "" })
  else
    (⟨c.activeTxID, defaultOp⟩, c)

/-- MySQL command bytes (src/unnamed/part_005). -/
def comQuery : Nat := 0x03

def comStmtPrepare : Nat := 0x16

def comStmtExecute : Nat := 0x17

def comStmtClose : Nat := 0x19

/-- MySQL response packet type indicators. -/
def iOK : Nat := 0x00

def iERR : Nat := 0xFF

def iEOF : Nat := 0xFE

/-- MySQL binary protocol field types. -/
def mysqlTypeTiny : Nat := 0x01

def mysqlTypeShort : Nat := 0x02

def mysqlTypeLong : Nat := 0x03

def mysqlTypeFloat : Nat := 0x04

def mysqlTypeDouble : Nat := 0x05

def mysqlTypeNull : Nat := 0x06

def mysqlTypeLongLong : Nat := 0x08

def mysqlTypeInt24 : Nat := 0x09

def mysqlTypeYear : Nat := 0x0d

/-- `responseState` from src/unnamed/part_005. -/
inductive ResponseState where
  | Idle
  | FirstResp
  | ColumnDefs
  | RowData
  | SkipPrepare
deriving DecidableEq, Repr

/-- `preparedStmt` from src/unnamed/part_005. -/
structure PreparedStmt where
  query : String
  numParams : Nat
deriving DecidableEq, Repr

/-- The per-connection MySQL state (`conn` in src/unnamed/part_005).
`preparedStmts` is a Go map read at its zero value, so it is a total
function; `delete` resets an entry to the zero value, which is
observationally the same. -/
structure MyConn where
  tx : TxState
  nextID : Nat
  preparedStmts : Nat → PreparedStmt
  lastCommand : Nat
  lastQuery : String
  lastStmtID : Nat
  state : ResponseState
  skipPackets : Int
  pending : Option proxy.Event

/-- `generateID` from src/unnamed/part_005. -/
def generateID (c : MyConn) : String × MyConn :=
  (toString (c.nextID + 1), { c with nextID := c.nextID + 1 })

/-- Little-endian recombination of 2 bytes. -/
def le2 (b0 b1 : Nat) : Nat := b0 + 256 * b1

/-- Little-endian recombination of 3 bytes. -/
def le3 (b0 b1 b2 : Nat) : Nat := b0 + 256 * b1 + 65536 * b2

/-- Little-endian recombination of 4 bytes. -/
def le4 (b0 b1 b2 b3 : Nat) : Nat := b0 + 256 * b1 + 65536 * b2 + 16777216 * b3

/-- Little-endian recombination of 8 bytes. -/
def le8 (b0 b1 b2 b3 b4 b5 b6 b7 : Nat) : Nat :=
  le4 b0 b1 b2 b3 + 4294967296 * le4 b4 b5 b6 b7

/-- Reinterpret a `w`-bit unsigned value as two's-complement signed
(the Go `int8`/`int16`/`int32`/`int64` conversions). -/
def asSigned (w : Nat) (u : Nat) : Int :=
  if u < 2 ^ (w - 1) then (u : Int) else (u : Int) - 2 ^ w

/-- `string(bytes)` for a byte slice; byte values become code points,
which agrees with Go for ASCII payloads. -/
def stringOfBytes (l : List Nat) : String := ⟨l.map Char.ofNat⟩

/-- `payloadByte` from src/unnamed/part_005: the first payload byte, or 0
for a header-only packet. -/
def payloadByte (pkt : List Nat) : Nat := pkt.getD 4 0

/-- `payloadLen` from src/unnamed/part_005: the length encoded in the
3-byte little-endian header. -/
def payloadLen (pkt : List Nat) : Nat :=
  le3 (pkt.getD 0 0) (pkt.getD 1 0) (pkt.getD 2 0)

/-- The framing produced by `readPacket`: header (3-byte little-endian
length + sequence id) followed by the payload. -/
def mkPacket (seq : Nat) (payload : List Nat) : List Nat :=
  [payload.length % 256, payload.length / 256 % 256, payload.length / 65536 % 256, seq]
    ++ payload

/-- `isEOFPacket` from src/unnamed/part_005. -/
def isEOFPacket (pkt : List Nat) : Bool :=
  payloadByte pkt = iEOF && payloadLen pkt < 9

/-- `readLenEncInt` from src/unnamed/part_005: value and number of bytes
consumed, `(0, 0)` on truncation or a non-integer marker byte. -/
def readLenEncInt (data : List Nat) (offset : Nat) : Nat × Nat :=
  if data.length ≤ offset then (0, 0)
  else
    let b := data.getD offset 0
    if b < 0xFB then (b, 1)
    else if b = 0xFC then
      if data.length ≤ offset + 2 then (0, 0)
      else (le2 (data.getD (offset + 1) 0) (data.getD (offset + 2) 0), 3)
    else if b = 0xFD then
      if data.length ≤ offset + 3 then (0, 0)
      else (le3 (data.getD (offset + 1) 0) (data.getD (offset + 2) 0)
              (data.getD (offset + 3) 0), 4)
    else if b = 0xFE then
      if data.length ≤ offset + 8 then (0, 0)
      else (le8 (data.getD (offset + 1) 0) (data.getD (offset + 2) 0)
              (data.getD (offset + 3) 0) (data.getD (offset + 4) 0)
              (data.getD (offset + 5) 0) (data.getD (offset + 6) 0)
              (data.getD (offset + 7) 0) (data.getD (offset + 8) 0), 9)
    else (0, 0)

/-- The renderings of `strconv.FormatFloat` on
`math.Float32frombits`/`math.Float64frombits`.  Binary floating-point
formatting is kept abstract: every theorem below holds for an arbitrary
formatter, no claim depends on a float parameter. -/
structure FloatFmt where
  fmt32 : Nat → String
  fmt64 : Nat → String

/-- `readBinaryValue` from src/unnamed/part_005. -/
def readBinaryValue (ff : FloatFmt) (data : List Nat) (off : Nat) (typ : Nat) :
    String × Nat :=
  if data.length ≤ off then ("?", 0)
  else if typ = mysqlTypeTiny then
    if data.length < off + 1 then ("?", 0)
    else (toString (asSigned 8 (data.getD off 0)), 1)
  else if typ = mysqlTypeShort || typ = mysqlTypeYear then
    if data.length < off + 2 then ("?", 0)
    else (toString (asSigned 16 (le2 (data.getD off 0) (data.getD (off + 1) 0))), 2)
  else if typ = mysqlTypeLong || typ = mysqlTypeInt24 then
    if data.length < off + 4 then ("?", 0)
    else
      (toString (asSigned 32 (le4 (data.getD off 0) (data.getD (off + 1) 0)
          (data.getD (off + 2) 0) (data.getD (off + 3) 0))), 4)
  else if typ = mysqlTypeLongLong then
    if data.length < off + 8 then ("?", 0)
    else
      (toString (asSigned 64 (le8 (data.getD off 0) (data.getD (off + 1) 0)
          (data.getD (off + 2) 0) (data.getD (off + 3) 0) (data.getD (off + 4) 0)
          (data.getD (off + 5) 0) (data.getD (off + 6) 0) (data.getD (off + 7) 0))), 8)
  else if typ = mysqlTypeFloat then
    if data.length < off + 4 then ("?", 0)
    else
      (ff.fmt32 (le4 (data.getD off 0) (data.getD (off + 1) 0)
          (data.getD (off + 2) 0) (data.getD (off + 3) 0)), 4)
  else if typ = mysqlTypeDouble then
    if data.length < off + 8 then ("?", 0)
    else
      (ff.fmt64 (le8 (data.getD off 0) (data.getD (off + 1) 0)
          (data.getD (off + 2) 0) (data.getD (off + 3) 0) (data.getD (off + 4) 0)
          (data.getD (off + 5) 0) (data.getD (off + 6) 0) (data.getD (off + 7) 0)), 8)
  else if typ = mysqlTypeNull then ("NULL", 0)
  else
    let r := readLenEncInt data off
    if r.2 = 0 then ("?", 0)
    else if data.length < off + r.2 + r.1 then ("?", 0)
    else (stringOfBytes ((data.drop (off + r.2)).take r.1), r.2 + r.1)

/-- The value loop of `parseStmtExecuteArgs`: one string per type
descriptor, reading the null bitmap and then the binary values at the
running offset. -/
def readArgs (ff : FloatFmt) (payload nullBitmap : List Nat) :
    List Nat → Nat → Nat → List String
  | [], _, _ => []
  | typ :: rest, i, off =>
    if nullBitmap.getD (i / 8) 0 &&& (1 <<< (i % 8)) ≠ 0 then
      "NULL" :: readArgs ff payload nullBitmap rest (i + 1) off
    else
      let v := readBinaryValue ff payload off typ
      v.1 :: readArgs ff payload nullBitmap rest (i + 1) (off + v.2)

/-- `parseStmtExecuteArgs` from src/unnamed/part_005. -/
def parseStmtExecuteArgs (ff : FloatFmt) (payload : List Nat) (numParams : Nat) :
    List String :=
  if numParams = 0 then []
  else
    let nullBitmapLen := (numParams + 7) / 8
    if payload.length < 10 + nullBitmapLen + 1 then []
    else
      let nullBitmap := (payload.drop 10).take nullBitmapLen
      let off := 10 + nullBitmapLen
      let boundFlag := payload.getD off 0
      let off := off + 1
      if boundFlag = 1 then
        if payload.length < off + numParams * 2 then []
        else
          let types := (List.range numParams).map fun i => payload.getD (off + i * 2) 0
          readArgs ff payload nullBitmap types 0 (off + numParams * 2)
      else
        readArgs ff payload nullBitmap (List.replicate numParams 0) 0 off

/-- `captureClientPacket` from src/unnamed/part_005; `now` is the
`time.Now()` observation for the created event. -/
def captureClientPacket (ff : FloatFmt) (c : MyConn) (pkt : List Nat) (now : Int) :
    MyConn :=
  if payloadLen pkt < 1 then c
  else
    let payload := pkt.drop 4
    let cmd := payloadByte pkt
    if cmd = comQuery then
      let q := stringOfBytes (payload.drop 1)
      let r := detectTx c.tx q .Query
      let c1 := { c with lastCommand := comQuery, lastQuery := q,
                         state := .FirstResp, tx := r.2 }
      let idc := generateID c1
      let ev : proxy.Event :=
        { ID := idc.1, Op := r.1.op, Query := q, StartTime := now, TxID := r.1.txID }
      { idc.2 with pending := some ev }
    else if cmd = comStmtPrepare then
      { c with lastCommand := comStmtPrepare, lastQuery := stringOfBytes (payload.drop 1),
               state := .FirstResp }
    else if cmd = comStmtExecute then
      let c0 := { c with lastCommand := comStmtExecute, state := .FirstResp }
      if 5 ≤ payload.length then
        let stmtID := le4 (payload.getD 1 0) (payload.getD 2 0) (payload.getD 3 0)
          (payload.getD 4 0)
        let stmt := c0.preparedStmts stmtID
        let args := parseStmtExecuteArgs ff payload stmt.numParams
        let r := detectTx c0.tx stmt.query .Execute
        let c1 := { c0 with lastStmtID := stmtID, lastQuery := stmt.query, tx := r.2 }
        let idc := generateID c1
        let ev : proxy.Event :=
          { ID := idc.1, Op := r.1.op, Query := stmt.query, Args := args,
            StartTime := now, TxID := r.1.txID }
        { idc.2 with pending := some ev }
      else c0
    else if cmd = comStmtClose then
      if 5 ≤ payload.length then
        let stmtID := le4 (payload.getD 1 0) (payload.getD 2 0) (payload.getD 3 0)
          (payload.getD 4 0)
        { c with preparedStmts := fun k =>
            if k = stmtID then ⟨"", 0⟩ else c.preparedStmts k }
      else c
    else c

/-- `finalizeOK` from src/unnamed/part_005: move out `pending`, set
duration and affected rows, emit.  The `int64(rows)` cast is the 64-bit
reinterpretation. -/
def finalizeOK (c : MyConn) (pkt : List Nat) (now : Int) : MyConn × List proxy.Event :=
  let c1 := { c with pending := none }
  match c.pending with
  | none => (c1, [])
  | some ev =>
    let ev1 := { ev with Duration := now - ev.StartTime }
    let payload := pkt.drop 4
    let ev2 :=
      if 1 < payload.length then
        { ev1 with RowsAffected := asSigned 64 (readLenEncInt payload 1).1 }
      else ev1
    (c1, [ev2])

/-- `finalizeError` from src/unnamed/part_005. -/
def finalizeError (c : MyConn) (pkt : List Nat) (now : Int) : MyConn × List proxy.Event :=
  let c1 := { c with pending := none }
  match c.pending with
  | none => (c1, [])
  | some ev =>
    let ev1 := { ev with Duration := now - ev.StartTime }
    let payload := pkt.drop 4
    let ev2 :=
      if 9 < payload.length ∧ payload.getD 3 0 = 35 then
        { ev1 with Error := stringOfBytes (payload.drop 9) }
      else if 3 < payload.length then
        { ev1 with Error := stringOfBytes (payload.drop 3) }
      else ev1
    (c1, [ev2])

/-- `finalizeResultSet` from src/unnamed/part_005. -/
def finalizeResultSet (c : MyConn) (now : Int) : MyConn × List proxy.Event :=
  let c1 := { c with pending := none }
  match c.pending with
  | none => (c1, [])
  | some ev => (c1, [{ ev with Duration := now - ev.StartTime }])

/-- `handleStmtPrepareOK` from src/unnamed/part_005. -/
def handleStmtPrepareOK (c : MyConn) (pkt : List Nat) : MyConn :=
  let payload := pkt.drop 4
  if payload.length < 12 then { c with state := .Idle }
  else
    let stmtID := le4 (payload.getD 1 0) (payload.getD 2 0) (payload.getD 3 0)
      (payload.getD 4 0)
    let numColumns := le2 (payload.getD 5 0) (payload.getD 6 0)
    let numParams := le2 (payload.getD 7 0) (payload.getD 8 0)
    let c1 := { c with preparedStmts := fun k =>
        if k = stmtID then ⟨c.lastQuery, numParams⟩ else c.preparedStmts k }
    let skip := (if 0 < numParams then numParams + 1 else 0)
      + (if 0 < numColumns then numColumns + 1 else 0)
    if 0 < skip then { c1 with skipPackets := (skip : Int), state := .SkipPrepare }
    else { c1 with skipPackets := (skip : Int), state := .Idle }

/-- `handleFirstResponse` from src/unnamed/part_005. -/
def handleFirstResponse (c : MyConn) (pkt : List Nat) (now : Int) :
    MyConn × List proxy.Event :=
  let first := payloadByte pkt
  if first = iOK ∧ c.lastCommand ≠ comStmtPrepare then
    let r := finalizeOK c pkt now
    ({ r.1 with state := .Idle }, r.2)
  else if first = iERR then
    let r := finalizeError c pkt now
    ({ r.1 with state := .Idle }, r.2)
  else if first = iOK ∧ c.lastCommand = comStmtPrepare then
    (handleStmtPrepareOK c pkt, [])
  else
    ({ c with state := .ColumnDefs }, [])

/-- `captureUpstreamPacket` from src/unnamed/part_005. -/
def captureUpstreamPacket (c : MyConn) (pkt : List Nat) (now : Int) :
    MyConn × List proxy.Event :=
  match c.state with
  | .Idle => (c, [])
  | .FirstResp => handleFirstResponse c pkt now
  | .ColumnDefs =>
    if isEOFPacket pkt then ({ c with state := .RowData }, []) else (c, [])
  | .RowData =>
    if isEOFPacket pkt then
      let r := finalizeResultSet c now
      ({ r.1 with state := .Idle }, r.2)
    else if payloadByte pkt = iERR then
      let r := finalizeError c pkt now
      ({ r.1 with state := .Idle }, r.2)
    else (c, [])
  | .SkipPrepare =>
    let sp := c.skipPackets - 1
    if sp ≤ 0 then ({ c with skipPackets := sp, state := .Idle }, [])
    else ({ c with skipPackets := sp }, [])

/-- One iteration of `relayUpstreamToClient`: capture, then forward the
packet to the client unchanged.  The third component is the packet
written to the client socket. -/
def upstreamRelayStep (c : MyConn) (pkt : List Nat) (now : Int) :
    MyConn × List proxy.Event × List Nat :=
  let r := captureUpstreamPacket c pkt now
  (r.1, r.2, pkt)

end mysql


/-- Which interceptor variant drives a connection (the two `detectTx`
functions differ only in the transaction-opening trigger). -/
inductive Dialect where
  | pg
  | my
deriving DecidableEq, Repr

/-- The `detectTx` of the selected interceptor. -/
def dialectDetectTx : Dialect → TxState → String → proxy.Op → TxDetectResult × TxState
  | .pg => postgres.detectTx
  | .my => mysql.detectTx

/-- The transaction tags of the events issued on one connection: each
captured query, with the event's default op, passes through `detectTx`
in order. -/
def txRun (dd : Dialect) : TxState → List (String × proxy.Op) → List TxDetectResult
  | _, [] => []
  | c, (q, op) :: rest =>
    (dialectDetectTx dd c q op).1 :: txRun dd (dialectDetectTx dd c q op).2 rest

/-- The transaction state after a sequence of captured queries. -/
def txStateAfter (dd : Dialect) : TxState → List (String × proxy.Op) → TxState
  | c, [] => c
  | c, (q, op) :: rest => txStateAfter dd (dialectDetectTx dd c q op).2 rest

/-- The transaction-opening trigger of `detectTx`: `BEGIN`, plus
`START TRANSACTION` in the MySQL variant. -/
def isBeginQ (dd : Dialect) (q : String) : Bool :=
  strutil.startsWith (strutil.toUpper (strutil.trimSpace q)) "BEGIN" ||
    (dd = .my && strutil.startsWith (strutil.toUpper (strutil.trimSpace q))
      "START TRANSACTION")

/-- The `COMMIT` trigger of `detectTx`. -/
def isCommitQ (q : String) : Bool :=
  strutil.startsWith (strutil.toUpper (strutil.trimSpace q)) "COMMIT"

/-- The `ROLLBACK` trigger of `detectTx`. -/
def isRollbackQ (q : String) : Bool :=
  strutil.startsWith (strutil.toUpper (strutil.trimSpace q)) "ROLLBACK"

/-- A transaction terminator. -/
def isTermQ (q : String) : Bool := isCommitQ q || isRollbackQ q

namespace listutil

theorem getD_append_off (pre l2 : List α) (k : Nat) (d : α) :
    (pre ++ l2).getD (pre.length + k) d = l2.getD k d := by
  rw [List.getD_append_right _ _ _ _ (Nat.le_add_right _ _), Nat.add_sub_cancel_left]

theorem getD_append_at (pre l2 : List α) (d : α) :
    (pre ++ l2).getD pre.length d = l2.getD 0 d := by
  simpa using getD_append_off pre l2 0 d

end listutil

/-! ## Theorems -/

/-- Claim C8: `Normalize` maps each of the five listed inputs to exactly
the stated output. -/
theorem C8_normalize_examples :
    query.Normalize "SELECT id FROM users WHERE id = 42" = "SELECT id FROM users WHERE id = ?" ∧
    query.Normalize "WHERE name = 'it''s'" = "WHERE name = '?'" ∧
    query.Normalize "WHERE id IN (1, 2, 3)" = "WHERE id IN (?, ?, ?)" ∧
    query.Normalize "SELECT t1.id FROM t1" = "SELECT t1.id FROM t1" ∧
    query.Normalize "WHERE x = -5" = "WHERE x = -?" :=
  ⟨rfl, rfl, rfl, rfl, rfl⟩

/-- Claim C2, counterexample: for the simple query `SELECT 1` the
PostgreSQL interceptor emits the event at request time, with
`Duration = 0`; the claimed `Duration > 0` is false.  The upstream
response (`CommandComplete`) emits nothing and changes nothing. -/
theorem C2_counterexample :
    (postgres.handleSimpleQuery ⟨⟨fun _ => "uuid", 0, ""⟩, 0⟩ "SELECT 1" 7).2 =
      [{ ID := "1", Op := .Query, Query := "SELECT 1", StartTime := 7 }] ∧
    ¬ 0 < ((postgres.handleSimpleQuery ⟨⟨fun _ => "uuid", 0, ""⟩, 0⟩ "SELECT 1" 7).2.headD
        default).Duration ∧
    (postgres.handleCommandComplete ⟨⟨fun _ => "uuid", 0, ""⟩, 0⟩).2 = [] := by
  refine ⟨rfl, ?_, rfl⟩
  decide

/-- Claim C2, amended: for a PostgreSQL simple query `SELECT 1` the
interceptor emits exactly one event, with `Op = Query`,
`Query = "SELECT 1"`, `Error = ""` and `Duration = 0` — the event is
emitted at request time, and the response side (`handleCommandComplete`)
emits nothing further. -/
theorem C2_pg_simple_query_event (c : postgres.PgConn) (now : Int) :
    (postgres.handleSimpleQuery c "SELECT 1" now).2 =
      [{ ID := toString (c.nextID + 1), Op := .Query, Query := "SELECT 1", Args := [],
         StartTime := now, Duration := 0, RowsAffected := 0, Error := "",
         TxID := c.tx.activeTxID, NPlus1 := false, NormalizedQuery := "" }] ∧
    ∀ c' : postgres.PgConn, (postgres.handleCommandComplete c').2 = [] := by
  constructor
  · have h1 : strutil.startsWith (strutil.toUpper (strutil.trimSpace "SELECT 1")) "BEGIN"
        = false := by decide
    have h2 : strutil.startsWith (strutil.toUpper (strutil.trimSpace "SELECT 1")) "COMMIT"
        = false := by decide
    have h3 : strutil.startsWith (strutil.toUpper (strutil.trimSpace "SELECT 1")) "ROLLBACK"
        = false := by decide
    simp [postgres.handleSimpleQuery, postgres.detectTx, postgres.generateID, h1, h2, h3]
  · intro c'
    rfl

/-- Claim C6: a `COM_STMT_EXECUTE` for a statement id mapped to a
prepared statement `⟨Q, 2⟩`, with two non-NULL `LONG` parameters 1 and 2
(null bits clear, `new_params_bound_flag = 1`), creates the pending event
with `Op = Execute`, `Query = Q`, `Args = ["1", "2"]`; moreover every
non-NULL integer parameter is decoded little-endian at its type's width
and rendered as signed decimal, and a set null bit renders `"NULL"`. -/
theorem C6_stmt_execute_args (ff : mysql.FloatFmt) (c : mysql.MyConn) (Q : String)
    (seq : Nat) (now : Int)
    (hstmt : c.preparedStmts 1 = ⟨Q, 2⟩)
    (hQ1 : strutil.startsWith (strutil.toUpper (strutil.trimSpace Q)) "BEGIN" = false)
    (hQ2 : strutil.startsWith (strutil.toUpper (strutil.trimSpace Q)) "START TRANSACTION"
      = false)
    (hQ3 : strutil.startsWith (strutil.toUpper (strutil.trimSpace Q)) "COMMIT" = false)
    (hQ4 : strutil.startsWith (strutil.toUpper (strutil.trimSpace Q)) "ROLLBACK" = false) :
    (mysql.captureClientPacket ff c
        (mysql.mkPacket seq
          [0x17, 1, 0, 0, 0, 0, 1, 0, 0, 0,
           0x00, 0x01, 0x03, 0x00, 0x03, 0x00, 1, 0, 0, 0, 2, 0, 0, 0]) now).pending =
      some { ID := toString (c.nextID + 1), Op := .Execute, Query := Q,
             Args := ["1", "2"], StartTime := now, TxID := c.tx.activeTxID } ∧
    (∀ (pre suf : List Nat) (b0 : Nat),
      mysql.readBinaryValue ff (pre ++ b0 :: suf) pre.length mysql.mysqlTypeTiny =
        (toString (mysql.asSigned 8 b0), 1)) ∧
    (∀ (pre suf : List Nat) (b0 b1 : Nat),
      mysql.readBinaryValue ff (pre ++ b0 :: b1 :: suf) pre.length mysql.mysqlTypeShort =
        (toString (mysql.asSigned 16 (mysql.le2 b0 b1)), 2)) ∧
    (∀ (pre suf : List Nat) (b0 b1 b2 b3 : Nat),
      mysql.readBinaryValue ff (pre ++ b0 :: b1 :: b2 :: b3 :: suf) pre.length
          mysql.mysqlTypeLong =
        (toString (mysql.asSigned 32 (mysql.le4 b0 b1 b2 b3)), 4)) ∧
    (∀ (pre suf : List Nat) (b0 b1 b2 b3 b4 b5 b6 b7 : Nat),
      mysql.readBinaryValue ff (pre ++ b0 :: b1 :: b2 :: b3 :: b4 :: b5 :: b6 :: b7 :: suf)
          pre.length mysql.mysqlTypeLongLong =
        (toString (mysql.asSigned 64 (mysql.le8 b0 b1 b2 b3 b4 b5 b6 b7)), 8)) ∧
    (∀ (payload2 nb : List Nat) (typ : Nat) (restTypes : List Nat) (i off : Nat),
      nb.getD (i / 8) 0 &&& (1 <<< (i % 8)) ≠ 0 →
      mysql.readArgs ff payload2 nb (typ :: restTypes) i off =
        "NULL" :: mysql.readArgs ff payload2 nb restTypes (i + 1) off) := by
  refine ⟨?_, ?_, ?_, ?_, ?_, ?_⟩
  · have h0 : (mysql.captureClientPacket ff c
        (mysql.mkPacket seq
          [0x17, 1, 0, 0, 0, 0, 1, 0, 0, 0,
           0x00, 0x01, 0x03, 0x00, 0x03, 0x00, 1, 0, 0, 0, 2, 0, 0, 0]) now).pending =
      some { ID := toString (c.nextID + 1),
             Op := (mysql.detectTx c.tx (c.preparedStmts 1).query .Execute).1.op,
             Query := (c.preparedStmts 1).query,
             Args := mysql.parseStmtExecuteArgs ff
               [0x17, 1, 0, 0, 0, 0, 1, 0, 0, 0,
                0x00, 0x01, 0x03, 0x00, 0x03, 0x00, 1, 0, 0, 0, 2, 0, 0, 0]
               (c.preparedStmts 1).numParams,
             StartTime := now,
             TxID := (mysql.detectTx c.tx (c.preparedStmts 1).query .Execute).1.txID } := rfl
    rw [h0, hstmt]
    have hargs : mysql.parseStmtExecuteArgs ff
        [0x17, 1, 0, 0, 0, 0, 1, 0, 0, 0,
         0x00, 0x01, 0x03, 0x00, 0x03, 0x00, 1, 0, 0, 0, 2, 0, 0, 0] 2 = ["1", "2"] := by
      have s1 : mysql.parseStmtExecuteArgs ff
          [0x17, 1, 0, 0, 0, 0, 1, 0, 0, 0,
           0x00, 0x01, 0x03, 0x00, 0x03, 0x00, 1, 0, 0, 0, 2, 0, 0, 0] 2 =
          mysql.readArgs ff
            [0x17, 1, 0, 0, 0, 0, 1, 0, 0, 0,
             0x00, 0x01, 0x03, 0x00, 0x03, 0x00, 1, 0, 0, 0, 2, 0, 0, 0]
            [0] [3, 3] 0 16 := rfl
      have s2 : mysql.readArgs ff
          [0x17, 1, 0, 0, 0, 0, 1, 0, 0, 0,
           0x00, 0x01, 0x03, 0x00, 0x03, 0x00, 1, 0, 0, 0, 2, 0, 0, 0] [0] [3, 3] 0 16 =
          "1" :: mysql.readArgs ff
            [0x17, 1, 0, 0, 0, 0, 1, 0, 0, 0,
             0x00, 0x01, 0x03, 0x00, 0x03, 0x00, 1, 0, 0, 0, 2, 0, 0, 0]
            [0] [3] 1 (16 + 4) := rfl
      have s3 : mysql.readArgs ff
          [0x17, 1, 0, 0, 0, 0, 1, 0, 0, 0,
           0x00, 0x01, 0x03, 0x00, 0x03, 0x00, 1, 0, 0, 0, 2, 0, 0, 0] [0] [3] 1 20 =
          "2" :: mysql.readArgs ff
            [0x17, 1, 0, 0, 0, 0, 1, 0, 0, 0,
             0x00, 0x01, 0x03, 0x00, 0x03, 0x00, 1, 0, 0, 0, 2, 0, 0, 0]
            [0] [] 2 (20 + 4) := rfl
      have s4 : mysql.readArgs ff
          [0x17, 1, 0, 0, 0, 0, 1, 0, 0, 0,
           0x00, 0x01, 0x03, 0x00, 0x03, 0x00, 1, 0, 0, 0, 2, 0, 0, 0]
          [0] ([] : List Nat) 2 24 = [] := rfl
      rw [s1, s2]
      show "1" :: mysql.readArgs ff
        [0x17, 1, 0, 0, 0, 0, 1, 0, 0, 0,
         0x00, 0x01, 0x03, 0x00, 0x03, 0x00, 1, 0, 0, 0, 2, 0, 0, 0] [0] [3] 1 20 = _
      rw [s3]
      show "1" :: "2" :: mysql.readArgs ff
        [0x17, 1, 0, 0, 0, 0, 1, 0, 0, 0,
         0x00, 0x01, 0x03, 0x00, 0x03, 0x00, 1, 0, 0, 0, 2, 0, 0, 0] [0] [] 2 24 = _
      rw [s4]
    simp only [hargs, mysql.detectTx, hQ1, hQ2, hQ3, hQ4, Bool.or_self, if_false,
      Bool.false_eq_true]
  · intro pre suf b0
    simp [mysql.readBinaryValue, mysql.mysqlTypeTiny, List.getElem_append_right]
  · intro pre suf b0 b1
    simp [mysql.readBinaryValue, mysql.mysqlTypeTiny, mysql.mysqlTypeShort,
      List.getElem_append_right]
  · intro pre suf b0 b1 b2 b3
    simp [mysql.readBinaryValue, mysql.mysqlTypeTiny, mysql.mysqlTypeShort, mysql.mysqlTypeYear,
      mysql.mysqlTypeLong, List.getElem_append_right]
  · intro pre suf b0 b1 b2 b3 b4 b5 b6 b7
    simp [mysql.readBinaryValue, mysql.mysqlTypeTiny, mysql.mysqlTypeShort, mysql.mysqlTypeYear,
      mysql.mysqlTypeLong, mysql.mysqlTypeInt24, mysql.mysqlTypeLongLong,
      List.getElem_append_right]
  · intro payload2 nb typ restTypes i off hbit
    simp only [List.getD, List.get?_eq_getElem?] at hbit
    simp [mysql.readArgs, hbit]

/-- Witness for C6 at a concrete connection, statement `SELECT ? + ?`,
statement id 1, and values 1 and 2. -/
theorem C6_stmt_execute_args_witness :
    (mysql.captureClientPacket ⟨fun _ => "", fun _ => ""⟩
        ⟨⟨fun _ => "u", 0, ""⟩, 0,
         (fun k => if k = 1 then ⟨"SELECT ? + ?", 2⟩ else ⟨"", 0⟩),
         0, "", 0, .Idle, 0, none⟩
        (mysql.mkPacket 0
          [0x17, 1, 0, 0, 0, 0, 1, 0, 0, 0,
           0x00, 0x01, 0x03, 0x00, 0x03, 0x00, 1, 0, 0, 0, 2, 0, 0, 0]) 3).pending =
      some { ID := toString (0 + 1), Op := .Execute, Query := "SELECT ? + ?",
             Args := ["1", "2"], StartTime := 3, TxID := "" } :=
  (C6_stmt_execute_args ⟨fun _ => "", fun _ => ""⟩
    ⟨⟨fun _ => "u", 0, ""⟩, 0,
     (fun k => if k = 1 then ⟨"SELECT ? + ?", 2⟩ else ⟨"", 0⟩),
     0, "", 0, .Idle, 0, none⟩
    "SELECT ? + ?" 0 3 rfl (by decide) (by decide) (by decide) (by decide)).1

theorem mkPacket_drop4 (seq : Nat) (payload : List Nat) :
    (mysql.mkPacket seq payload).drop 4 = payload := rfl

theorem mkPacket_payloadByte (seq : Nat) (payload : List Nat) :
    mysql.payloadByte (mysql.mkPacket seq payload) = payload.getD 0 0 := by
  simpa [mysql.mkPacket, mysql.payloadByte] using
    listutil.getD_append_off [payload.length % 256, payload.length / 256 % 256,
      payload.length / 65536 % 256, seq] payload 0 0

theorem mkPacket_payloadLen (seq : Nat) (payload : List Nat)
    (h : payload.length < 16777216) :
    mysql.payloadLen (mysql.mkPacket seq payload) = payload.length := by
  simp only [mysql.mkPacket, mysql.payloadLen, mysql.le3]
  simp only [List.getD_cons_zero, List.getD_cons_succ, List.cons_append, List.nil_append]
  omega

/-- Claim C5: in state `FirstResp`, an OK first response (first payload
byte `0x00`) with `lastCommand ≠ COM_STMT_PREPARE` finalizes and emits
the pending event exactly once, with `RowsAffected` the 64-bit value of
the length-encoded integer at payload byte 1, `Duration` the elapsed
time since `StartTime`, and the state returns to `Idle`.  The trailing
conjuncts pin the length-encoded integer format down: 1 byte below
`0xFB`, marker `0xFC`/`0xFD`/`0xFE` followed by 2/3/8 little-endian
bytes. -/
theorem C5_mysql_ok_finalize (c : mysql.MyConn) (ev : proxy.Event) (payload : List Nat)
    (now : Int) (seq : Nat)
    (hstate : c.state = .FirstResp)
    (hpend : c.pending = some ev)
    (hcmd : c.lastCommand ≠ mysql.comStmtPrepare)
    (hlen24 : payload.length < 16777216)
    (hfirst : payload.getD 0 0 = 0)
    (hlen2 : 2 ≤ payload.length) :
    (mysql.captureUpstreamPacket c (mysql.mkPacket seq payload) now).1.state = .Idle ∧
    (mysql.captureUpstreamPacket c (mysql.mkPacket seq payload) now).1.pending = none ∧
    (mysql.captureUpstreamPacket c (mysql.mkPacket seq payload) now).2 =
      [{ ev with Duration := now - ev.StartTime,
                 RowsAffected := mysql.asSigned 64 (mysql.readLenEncInt payload 1).1 }] ∧
    ((mysql.readLenEncInt payload 1).1 < 2 ^ 63 →
      mysql.asSigned 64 (mysql.readLenEncInt payload 1).1 =
        ((mysql.readLenEncInt payload 1).1 : Int)) ∧
    (payload.getD 1 0 < 0xFB → mysql.readLenEncInt payload 1 = (payload.getD 1 0, 1)) ∧
    (payload.getD 1 0 = 0xFC → 4 ≤ payload.length →
      mysql.readLenEncInt payload 1 =
        (mysql.le2 (payload.getD 2 0) (payload.getD 3 0), 3)) ∧
    (payload.getD 1 0 = 0xFD → 5 ≤ payload.length →
      mysql.readLenEncInt payload 1 =
        (mysql.le3 (payload.getD 2 0) (payload.getD 3 0) (payload.getD 4 0), 4)) ∧
    (payload.getD 1 0 = 0xFE → 10 ≤ payload.length →
      mysql.readLenEncInt payload 1 =
        (mysql.le8 (payload.getD 2 0) (payload.getD 3 0) (payload.getD 4 0)
          (payload.getD 5 0) (payload.getD 6 0) (payload.getD 7 0)
          (payload.getD 8 0) (payload.getD 9 0), 9)) := by
  have hpb : mysql.payloadByte (mysql.mkPacket seq payload) = 0 := by
    rw [mkPacket_payloadByte]; exact hfirst
  have h1lt : 1 < payload.length := by omega
  have hcap : mysql.captureUpstreamPacket c (mysql.mkPacket seq payload) now =
      ({ c with pending := none, state := .Idle },
       [{ ev with Duration := now - ev.StartTime,
                  RowsAffected := mysql.asSigned 64 (mysql.readLenEncInt payload 1).1 }]) := by
    simp only [mysql.captureUpstreamPacket, hstate]
    simp only [mysql.handleFirstResponse, hpb, mysql.iOK, mysql.iERR]
    rw [if_pos ⟨trivial, hcmd⟩]
    simp only [mysql.finalizeOK, hpend, mkPacket_drop4]
    rw [if_pos h1lt]
  refine ⟨by rw [hcap], by rw [hcap], by rw [hcap], ?_, ?_, ?_, ?_, ?_⟩
  · intro hsmall
    norm_num at hsmall
    simp [mysql.asSigned, hsmall]
  · intro hb
    simp only [List.getD, List.get?_eq_getElem?] at hb
    have : ¬ payload.length ≤ 1 := by omega
    simp [mysql.readLenEncInt, this, hb, List.getD]
  · intro hb hl
    simp only [List.getD, List.get?_eq_getElem?] at hb
    have h1 : ¬ payload.length ≤ 1 := by omega
    have h2 : ¬ payload.length ≤ 3 := by omega
    simp [mysql.readLenEncInt, h1, h2, hb, List.getD]
  · intro hb hl
    simp only [List.getD, List.get?_eq_getElem?] at hb
    have h1 : ¬ payload.length ≤ 1 := by omega
    have h2 : ¬ payload.length ≤ 4 := by omega
    simp [mysql.readLenEncInt, h1, h2, hb, List.getD]
  · intro hb hl
    simp only [List.getD, List.get?_eq_getElem?] at hb
    have h1 : ¬ payload.length ≤ 1 := by omega
    have h2 : ¬ payload.length ≤ 9 := by omega
    simp [mysql.readLenEncInt, h1, h2, hb, List.getD]

/-- Witness for C5: a concrete OK packet with `affected_rows = 5`
finalizes the pending event with `Duration = 15` and `RowsAffected = 5`. -/
theorem C5_mysql_ok_finalize_witness :
    (mysql.captureUpstreamPacket
        ⟨⟨fun _ => "u", 0, ""⟩, 1, (fun _ => ⟨"", 0⟩), mysql.comQuery, "INSERT INTO t", 0,
         .FirstResp, 0, some { Query := "INSERT INTO t", StartTime := 10 }⟩
        (mysql.mkPacket 1 [0, 5, 2, 0]) 25).2 =
      [{ Query := "INSERT INTO t", StartTime := 10, Duration := 15, RowsAffected := 5 }] :=
  (C5_mysql_ok_finalize
    ⟨⟨fun _ => "u", 0, ""⟩, 1, (fun _ => ⟨"", 0⟩), mysql.comQuery, "INSERT INTO t", 0,
     .FirstResp, 0, some { Query := "INSERT INTO t", StartTime := 10 }⟩
    { Query := "INSERT INTO t", StartTime := 10 } [0, 5, 2, 0] 25 1
    rfl rfl (by decide) (by decide) rfl (by decide)).2.2.1

/-- Claim C10: a response terminator (OK, ERR, or result-set EOF)
arriving with no pending event emits nothing, still forwards the packet,
and returns the state machine to `Idle`; moreover any emitted event
requires a pending event, and only `COM_QUERY` and `COM_STMT_EXECUTE`
client packets change the pending slot. -/
theorem C10_mysql_no_pending_terminator (c : mysql.MyConn) (pkt : List Nat) (now : Int)
    (hpend : c.pending = none) :
    (c.state = .FirstResp → mysql.payloadByte pkt = mysql.iOK →
      c.lastCommand ≠ mysql.comStmtPrepare →
      mysql.upstreamRelayStep c pkt now =
        ({ c with state := .Idle, pending := none }, [], pkt)) ∧
    (c.state = .FirstResp → mysql.payloadByte pkt = mysql.iERR →
      mysql.upstreamRelayStep c pkt now =
        ({ c with state := .Idle, pending := none }, [], pkt)) ∧
    (c.state = .RowData → mysql.isEOFPacket pkt = true →
      mysql.upstreamRelayStep c pkt now =
        ({ c with state := .Idle, pending := none }, [], pkt)) ∧
    (c.state = .RowData → mysql.payloadByte pkt = mysql.iERR →
      mysql.upstreamRelayStep c pkt now =
        ({ c with state := .Idle, pending := none }, [], pkt)) ∧
    (∀ (c2 : mysql.MyConn) (pkt2 : List Nat) (now2 : Int),
      (mysql.captureUpstreamPacket c2 pkt2 now2).2 ≠ [] → ∃ ev, c2.pending = some ev) ∧
    (∀ (ff : mysql.FloatFmt) (c2 : mysql.MyConn) (pkt2 : List Nat) (now2 : Int),
      (mysql.captureClientPacket ff c2 pkt2 now2).pending ≠ c2.pending →
      mysql.payloadByte pkt2 = mysql.comQuery ∨
        mysql.payloadByte pkt2 = mysql.comStmtExecute) := by
  refine ⟨?_, ?_, ?_, ?_, ?_, ?_⟩
  · intro h1 h2 h3
    simp [mysql.upstreamRelayStep, mysql.captureUpstreamPacket, h1,
      mysql.handleFirstResponse, h2, h3, mysql.finalizeOK, hpend, mysql.iOK, mysql.iERR]
  · intro h1 h2
    simp [mysql.upstreamRelayStep, mysql.captureUpstreamPacket, h1,
      mysql.handleFirstResponse, h2, mysql.finalizeError, hpend, mysql.iOK, mysql.iERR]
  · intro h1 h2
    simp [mysql.upstreamRelayStep, mysql.captureUpstreamPacket, h1, h2,
      mysql.finalizeResultSet, hpend]
  · intro h1 h2
    have heof : mysql.isEOFPacket pkt = false := by
      simp [mysql.isEOFPacket, h2, mysql.iERR, mysql.iEOF]
    simp [mysql.upstreamRelayStep, mysql.captureUpstreamPacket, h1, h2, heof,
      mysql.finalizeError, hpend, mysql.iERR]
  · intro c2 pkt2 now2 hne
    rcases hp : c2.pending with _ | ev
    · exfalso
      cases hs : c2.state <;>
        simp only [mysql.captureUpstreamPacket, hs] at hne
      · exact hne rfl
      · simp only [mysql.handleFirstResponse] at hne
        split_ifs at hne <;>
          simp [mysql.finalizeOK, mysql.finalizeError, mysql.handleStmtPrepareOK, hp] at hne
      · split_ifs at hne <;> simp at hne
      · split_ifs at hne <;>
          simp [mysql.finalizeResultSet, mysql.finalizeError, hp] at hne
      · split_ifs at hne <;> simp at hne
    · exact ⟨ev, rfl⟩
  · intro ff c2 pkt2 now2 hch
    simp only [mysql.captureClientPacket] at hch
    split_ifs at hch with h1 h2 h3 h4 h5
    · simp at hch
    · exact Or.inl h2
    · simp at hch
    · exact Or.inr h4
    · simp at hch
    · simp at hch
    · simp at hch
    · simp at hch

/-- Witness for C10: an OK terminator with no pending event is a no-op
on the event stream and forwards the packet. -/
theorem C10_mysql_no_pending_terminator_witness :
    mysql.upstreamRelayStep
        ⟨⟨fun _ => "u", 0, ""⟩, 0, (fun _ => ⟨"", 0⟩), mysql.comQuery, "", 0,
         .FirstResp, 0, none⟩
        (mysql.mkPacket 1 [0]) 5 =
      (⟨⟨fun _ => "u", 0, ""⟩, 0, (fun _ => ⟨"", 0⟩), mysql.comQuery, "", 0,
        .Idle, 0, none⟩, [], mysql.mkPacket 1 [0]) :=
  ((C10_mysql_no_pending_terminator
    ⟨⟨fun _ => "u", 0, ""⟩, 0, (fun _ => ⟨"", 0⟩), mysql.comQuery, "", 0,
     .FirstResp, 0, none⟩
    (mysql.mkPacket 1 [0]) 5 rfl).1 rfl rfl (by decide))

namespace detect

theorem evict_eq_self (times : List Int) (cutoff : Int)
    (h : ∀ x ∈ times, ¬ x < cutoff) : evict times cutoff = times := by
  cases times with
  | nil => rfl
  | cons a rest =>
    unfold evict
    rw [List.dropWhile_cons_of_neg]
    simpa using h a (by simp)

theorem Record_queries_self (d : Detector) (s : DetectorState) (q : String) (t : Int)
    (hq : q ≠ "") :
    (Record d s q t).2.queries q = evict (s.queries q) (t - d.window) ++ [t] := by
  simp only [Record, hq, if_false]
  split_ifs with h1
  · simp
  · split
    · simp
    · split_ifs <;> simp

theorem Record_queries_other (d : Detector) (s : DetectorState) (q k : String) (t : Int)
    (hk : k ≠ q) : (Record d s q t).2.queries k = s.queries k := by
  simp only [Record]
  split_ifs with h0 h1
  · rfl
  · simp [hk]
  · split
    · simp [hk]
    · split_ifs <;> simp [hk]

theorem Record_lastAlert_other (d : Detector) (s : DetectorState) (q k : String) (t : Int)
    (hk : k ≠ q) : (Record d s q t).2.lastAlert k = s.lastAlert k := by
  simp only [Record]
  split_ifs with h0 h1
  · rfl
  · simp [hk]
  · split
    · simp [hk]
    · split_ifs <;> simp [hk]

theorem Record_alert_none_lastAlert (d : Detector) (s : DetectorState) (q : String) (t : Int)
    (h : (Record d s q t).1.Alert = none) :
    (Record d s q t).2.lastAlert = s.lastAlert := by
  by_cases h0 : q = ""
  · simp [Record, h0]
  · by_cases hlen : (evict (s.queries q) (t - d.window)).length + 1 < d.threshold
    · simp [Record, h0, hlen]
    · rcases h3 : s.lastAlert q with _ | last
      · simp [Record, h0, hlen, h3] at h
      · by_cases h4 : d.cooldown ≤ t - last
        · simp [Record, h0, hlen, h3, h4] at h
        · simp [Record, h0, hlen, h3, h4]

theorem Record_alert_some (d : Detector) (s : DetectorState) (q : String) (t : Int)
    (a : Alert) (h : (Record d s q t).1.Alert = some a) :
    a.Query = q ∧ (Record d s q t).2.lastAlert q = some t ∧
      (s.lastAlert q = none ∨ ∃ t0, s.lastAlert q = some t0 ∧ d.cooldown ≤ t - t0) := by
  by_cases h0 : q = ""
  · simp [Record, h0] at h
  · by_cases hlen : (evict (s.queries q) (t - d.window)).length + 1 < d.threshold
    · simp [Record, h0, hlen] at h
    · rcases h3 : s.lastAlert q with _ | last
      · simp [Record, h0, hlen, h3] at h ⊢
        simp [← h]
      · by_cases h4 : d.cooldown ≤ t - last
        · simp [Record, h0, hlen, h3, h4] at h ⊢
          simp [← h]
        · simp [Record, h0, hlen, h3, h4] at h

theorem Record_cooldown_block (d : Detector) (s : DetectorState) (q : String) (t t0 : Int)
    (ht0 : s.lastAlert q = some t0) (hlt : t - t0 < d.cooldown) :
    (Record d s q t).1.Alert = none := by
  simp only [Record]
  split_ifs with h1 h2
  · rfl
  · rfl
  · simp only [ht0]
    rw [if_neg (by omega)]

theorem Record_matched_after_cooldown (d : Detector) (s : DetectorState) (q : String)
    (t t0 : Int) (ht0 : s.lastAlert q = some t0) (hge : d.cooldown ≤ t - t0)
    (hm : (Record d s q t).1.Matched = true) :
    (Record d s q t).1.Alert =
      some ⟨q, (evict (s.queries q) (t - d.window) ++ [t]).length⟩ := by
  by_cases h0 : q = ""
  · simp [Record, h0] at hm
  · by_cases hlen : (evict (s.queries q) (t - d.window)).length + 1 < d.threshold
    · simp [Record, h0, hlen] at hm
    · simp [Record, h0, hlen, ht0, hge]

theorem runDetector_append (d : Detector) (s : DetectorState) (l1 l2 : List Call) :
    runDetector d s (l1 ++ l2) =
      runDetector d s l1 ++ runDetector d (stateAfter d s l1) l2 := by
  induction l1 generalizing s with
  | nil => simp [runDetector, stateAfter]
  | cons c rest ih => simp [runDetector, stateAfter, ih]

theorem stateAfter_append (d : Detector) (s : DetectorState) (l1 l2 : List Call) :
    stateAfter d s (l1 ++ l2) = stateAfter d (stateAfter d s l1) l2 := by
  induction l1 generalizing s with
  | nil => simp [stateAfter]
  | cons c rest ih => simp [stateAfter, ih]

theorem runDetector_length (d : Detector) (s : DetectorState) (l : List Call) :
    (runDetector d s l).length = l.length := by
  induction l generalizing s with
  | nil => rfl
  | cons c rest ih => simp [runDetector, ih]

end detect

theorem isSelectQuery_ne_empty (op : proxy.Op) (q : String)
    (h : orch.isSelectQuery op q = true) : q ≠ "" := by
  intro hq
  subst hq
  cases op <;> simp [orch.isSelectQuery, strutil.trimSpace] at h

/-- Claim C1, counterexample: the orchestrator passes the raw
`ev.Query` — not the normalized template — to `Record`.  Two SELECTs
that differ only in a literal (equal `Normalize` outputs) accumulate in
two different sliding-window sequences; nothing accumulates under the
normalized key, and the second call is not matched even though two
Normalize-equal SELECTs arrived within the window with threshold 2. -/
theorem C1_counterexample :
    query.Normalize "SELECT id FROM users WHERE id = 1" =
      query.Normalize "SELECT id FROM users WHERE id = 2" ∧
    "SELECT id FROM users WHERE id = 1" ≠ "SELECT id FROM users WHERE id = 2" ∧
    ((orch.orchStep ⟨2, 5, 100⟩
        (orch.orchStep ⟨2, 5, 100⟩ detect.initState
          { Op := .Query, Query := "SELECT id FROM users WHERE id = 1",
            StartTime := 0 }).2
        { Op := .Query, Query := "SELECT id FROM users WHERE id = 2",
          StartTime := 1 }).2.queries "SELECT id FROM users WHERE id = 1" = [0]) ∧
    ((orch.orchStep ⟨2, 5, 100⟩
        (orch.orchStep ⟨2, 5, 100⟩ detect.initState
          { Op := .Query, Query := "SELECT id FROM users WHERE id = 1",
            StartTime := 0 }).2
        { Op := .Query, Query := "SELECT id FROM users WHERE id = 2",
          StartTime := 1 }).2.queries "SELECT id FROM users WHERE id = 2" = [1]) ∧
    ((orch.orchStep ⟨2, 5, 100⟩
        (orch.orchStep ⟨2, 5, 100⟩ detect.initState
          { Op := .Query, Query := "SELECT id FROM users WHERE id = 1",
            StartTime := 0 }).2
        { Op := .Query, Query := "SELECT id FROM users WHERE id = 2",
          StartTime := 1 }).2.queries
        (query.Normalize "SELECT id FROM users WHERE id = 1") = []) ∧
    ((orch.orchStep ⟨2, 5, 100⟩
        (orch.orchStep ⟨2, 5, 100⟩ detect.initState
          { Op := .Query, Query := "SELECT id FROM users WHERE id = 1",
            StartTime := 0 }).2
        { Op := .Query, Query := "SELECT id FROM users WHERE id = 2",
          StartTime := 1 }).1.NPlus1 = false) :=
  ⟨rfl, by decide, rfl, rfl, rfl, rfl⟩

/-- Claim C1, amended: the orchestrator's detector state is keyed by
the raw SQL text `ev.Query` passed to `Record`: a SELECT event
accumulates its timestamp in the sequence stored under `ev.Query`, and
leaves the sequence and last-alert time of every other key — including
the normalized template when it differs — unchanged. -/
theorem C1_orchestrator_records_raw_query (d : detect.Detector)
    (s : detect.DetectorState) (ev : proxy.Event)
    (hsel : orch.isSelectQuery ev.Op ev.Query = true) :
    (orch.orchStep d s ev).2.queries ev.Query =
      detect.evict (s.queries ev.Query) (ev.StartTime - d.window) ++ [ev.StartTime] ∧
    ∀ k, k ≠ ev.Query → (orch.orchStep d s ev).2.queries k = s.queries k ∧
      (orch.orchStep d s ev).2.lastAlert k = s.lastAlert k := by
  have hq := isSelectQuery_ne_empty ev.Op ev.Query hsel
  constructor
  · simp only [orch.orchStep, hsel, if_true]
    exact detect.Record_queries_self d s ev.Query ev.StartTime hq
  · intro k hk
    simp only [orch.orchStep, hsel, if_true]
    exact ⟨detect.Record_queries_other d s ev.Query k ev.StartTime hk,
      detect.Record_lastAlert_other d s ev.Query k ev.StartTime hk⟩

/-- Witness for the amended C1 at a concrete SELECT event. -/
theorem C1_orchestrator_records_raw_query_witness :
    (orch.orchStep ⟨2, 5, 100⟩ detect.initState
        { Op := .Query, Query := "SELECT 1", StartTime := 3 }).2.queries "SELECT 1" =
      [3] ∧
    (orch.orchStep ⟨2, 5, 100⟩ detect.initState
        { Op := .Query, Query := "SELECT 1", StartTime := 3 }).2.queries "OTHER" = [] :=
  ⟨(C1_orchestrator_records_raw_query ⟨2, 5, 100⟩ detect.initState
      { Op := .Query, Query := "SELECT 1", StartTime := 3 } (by decide)).1,
   ((C1_orchestrator_records_raw_query ⟨2, 5, 100⟩ detect.initState
      { Op := .Query, Query := "SELECT 1", StartTime := 3 } (by decide)).2 "OTHER"
      (by decide)).1⟩

namespace detect

theorem Record_below (d : Detector) (s : DetectorState) (q : String) (t : Int)
    (hq : q ≠ "") (hlt : (evict (s.queries q) (t - d.window)).length + 1 < d.threshold) :
    (Record d s q t).1 = ⟨false, none⟩ ∧
      (Record d s q t).2.lastAlert = s.lastAlert := by
  simp [Record, hq, hlt]

theorem Record_at_threshold (d : Detector) (s : DetectorState) (q : String) (t : Int)
    (hq : q ≠ "") (hla : s.lastAlert q = none)
    (hlen : ¬ (evict (s.queries q) (t - d.window)).length + 1 < d.threshold) :
    (Record d s q t).1 =
      ⟨true, some ⟨q, (evict (s.queries q) (t - d.window)).length + 1⟩⟩ := by
  simp [Record, hq, hlen, hla]

theorem run_below (d : Detector) (q : String) (hq : q ≠ "") :
    ∀ (l acc : List Int) (s : DetectorState),
      s.queries q = acc → s.lastAlert q = none →
      acc.length + l.length < d.threshold →
      (∀ x, (x ∈ acc ∨ x ∈ l) → ∀ y ∈ l, ¬ x < y - d.window) →
      runDetector d s (l.map fun t => (⟨q, t⟩ : Call)) =
        l.map (fun _ => (⟨false, none⟩ : Result)) ∧
      (stateAfter d s (l.map fun t => (⟨q, t⟩ : Call))).queries q = acc ++ l ∧
      (stateAfter d s (l.map fun t => (⟨q, t⟩ : Call))).lastAlert q = none := by
  intro l
  induction l with
  | nil =>
    intro acc s hacc hla hlen hwin
    simp [runDetector, stateAfter, hacc, hla]
  | cons t l2 ih =>
    intro acc s hacc hla hlen hwin
    have hevict : evict (s.queries q) (t - d.window) = acc := by
      rw [hacc]
      exact evict_eq_self _ _ (fun x hx => hwin x (Or.inl hx) t (by simp))
    have hlt : (evict (s.queries q) (t - d.window)).length + 1 < d.threshold := by
      rw [hevict]
      simp only [List.length_cons] at hlen
      omega
    obtain ⟨hres, hla2⟩ := Record_below d s q t hq hlt
    have hq1 : (Record d s q t).2.queries q = acc ++ [t] := by
      rw [Record_queries_self d s q t hq, hevict]
    have ihh := ih (acc ++ [t]) (Record d s q t).2 hq1
      (by rw [hla2]; exact hla)
      (by simp only [List.length_append, List.length_cons, List.length_nil] at hlen ⊢; omega)
      (fun x hx y hy => by
        refine hwin x ?_ y (List.mem_cons_of_mem _ hy)
        rcases hx with hx | hx
        · rcases List.mem_append.mp hx with hx | hx
          · exact Or.inl hx
          · simp only [List.mem_singleton] at hx
            subst hx
            exact Or.inr (by simp)
        · exact Or.inr (List.mem_cons_of_mem _ hx))
    refine ⟨?_, ?_, ?_⟩
    · simp only [List.map_cons, runDetector, hres, ihh.1]
    · simp only [List.map_cons, stateAfter, ihh.2.1, List.append_assoc, List.singleton_append]
    · simp only [List.map_cons, stateAfter, ihh.2.2]

end detect

/-- Claim C3: with threshold `N ≥ 1` and `N` same-template `Record`
calls on non-decreasing timestamps all within the window of the last
(and no prior state), the first `N − 1` calls return
`{matched := false, alert := none}` and the `N`-th returns
`{matched := true, alert := some ⟨q, N⟩}`. -/
theorem C3_detect_threshold_crossing (d : detect.Detector) (q : String) (ts : List Int)
    (hq : q ≠ "") (hth : d.threshold = ts.length) (h1 : 1 ≤ d.threshold)
    (_hmono : ts.Chain' (· ≤ ·))
    (hwin : ∀ x ∈ ts, ∀ y ∈ ts, ¬ x < y - d.window) :
    detect.runDetector d detect.initState (ts.map fun t => ⟨q, t⟩) =
      List.replicate (d.threshold - 1) ⟨false, none⟩ ++
        [⟨true, some ⟨q, d.threshold⟩⟩] := by
  have hne : ts ≠ [] := by
    intro h
    rw [h] at hth
    simp at hth
    omega
  have hsplit := List.dropLast_append_getLast hne
  have hlen : ts.dropLast.length = d.threshold - 1 := by
    rw [List.length_dropLast, ← hth]
  have hfront := detect.run_below d q hq ts.dropLast [] detect.initState rfl rfl
    (by
      simp only [List.length_nil, Nat.zero_add, List.length_dropLast, ← hth]
      omega)
    (fun x hx y hy => by
      refine hwin x ?_ y (List.dropLast_subset _ hy)
      rcases hx with hx | hx
      · simp at hx
      · exact List.dropLast_subset _ hx)
  rw [← hsplit, List.map_append, detect.runDetector_append]
  have hstate1 := hfront.2.1
  have hstate2 := hfront.2.2
  rw [hfront.1]
  have hev : detect.evict
      ((detect.stateAfter d detect.initState
        (ts.dropLast.map fun t => (⟨q, t⟩ : detect.Call))).queries q)
      (ts.getLast hne - d.window) = ts.dropLast := by
    rw [hstate1, List.nil_append]
    exact detect.evict_eq_self _ _
      (fun x hx => hwin x (List.dropLast_subset _ hx) (ts.getLast hne)
        (List.getLast_mem hne))
  have hlast := detect.Record_at_threshold d
    (detect.stateAfter d detect.initState (ts.dropLast.map fun t => (⟨q, t⟩ : detect.Call)))
    q (ts.getLast hne) hq hstate2
    (by rw [hev, hlen]; omega)
  have hcount : d.threshold - 1 + 1 = d.threshold := by omega
  simp only [List.map_cons, List.map_nil, detect.runDetector, hlast, hev, hlen, hcount]
  rw [List.map_const', hlen]

/-- Witness for C3 with `N = 3`, `W = 10`, `C = 100` and timestamps
`[0, 1, 2]`. -/
theorem C3_detect_threshold_crossing_witness :
    detect.runDetector ⟨3, 10, 100⟩ detect.initState
        ([0, 1, 2].map fun t => ⟨"SELECT 1", t⟩) =
      List.replicate 2 ⟨false, none⟩ ++ [⟨true, some ⟨"SELECT 1", 3⟩⟩] :=
  C3_detect_threshold_crossing ⟨3, 10, 100⟩ "SELECT 1" [0, 1, 2]
    (by decide) rfl (by decide) (by simp [List.chain'_cons]) (by decide)

namespace detect

theorem alert_time_bound (d : Detector) (hC : 0 ≤ d.cooldown) (q : String) :
    ∀ (calls : List Call) (s : DetectorState) (t0 : Int),
      s.lastAlert q = some t0 →
      ∀ (j : Nat) (hj : j < calls.length)
        (hj2 : j < (runDetector d s calls).length),
      (calls.get ⟨j, hj⟩).q = q →
      ∀ a, ((runDetector d s calls).get ⟨j, hj2⟩).Alert = some a →
      t0 + d.cooldown ≤ (calls.get ⟨j, hj⟩).t := by
  intro calls
  induction calls with
  | nil =>
    intro s t0 _ j hj
    exact absurd hj (by simp)
  | cons c rest ih =>
    intro s t0 hla j hj hj2 hq a halert
    cases j with
    | zero =>
      have hq0 : c.q = q := hq
      have hal0 : (Record d s c.q c.t).1.Alert = some a := halert
      show t0 + d.cooldown ≤ c.t
      obtain ⟨haq, hupd, hdisj⟩ := Record_alert_some d s c.q c.t a hal0
      rw [hq0] at hdisj
      rcases hdisj with hnone | ⟨t1, ht1, hge⟩
      · rw [hla] at hnone
        exact absurd hnone (by simp)
      · rw [hla] at ht1
        have ht10 : t0 = t1 := by injection ht1
        omega
    | succ j2 =>
      have hjr : j2 < rest.length := by
        simp only [List.length_cons] at hj
        omega
      have hjr2 : j2 < (runDetector d (Record d s c.q c.t).2 rest).length := by
        rw [runDetector_length]
        exact hjr
      have hq2 : (rest.get ⟨j2, hjr⟩).q = q := hq
      have hal2 : ((runDetector d (Record d s c.q c.t).2 rest).get ⟨j2, hjr2⟩).Alert
          = some a := halert
      show t0 + d.cooldown ≤ (rest.get ⟨j2, hjr⟩).t
      rcases hal : (Record d s c.q c.t).1.Alert with _ | a0
      · have hkeep := Record_alert_none_lastAlert d s c.q c.t hal
        exact ih (Record d s c.q c.t).2 t0 (by rw [hkeep]; exact hla)
          j2 hjr hjr2 hq2 a hal2
      · obtain ⟨haq, hupd, hdisj⟩ := Record_alert_some d s c.q c.t a0 hal
        by_cases hcq : c.q = q
        · rw [hcq] at hdisj
          have hupd2 : (Record d s c.q c.t).2.lastAlert q = some c.t := by
            rw [← hcq]
            exact hupd
          have hbound : t0 + d.cooldown ≤ c.t := by
            rcases hdisj with hnone | ⟨t1, ht1, hge⟩
            · rw [hla] at hnone
              exact absurd hnone (by simp)
            · rw [hla] at ht1
              have ht10 : t0 = t1 := by injection ht1
              omega
          have hrec := ih (Record d s c.q c.t).2 c.t hupd2 j2 hjr hjr2 hq2 a hal2
          omega
        · have hkeep := Record_lastAlert_other d s c.q q c.t
            (fun h => hcq h.symm)
          exact ih (Record d s c.q c.t).2 t0 (by rw [hkeep]; exact hla)
            j2 hjr hjr2 hq2 a hal2

theorem lastAlert_preserved (d : Detector) (q : String) :
    ∀ (calls : List Call) (s : DetectorState),
      (∀ r ∈ runDetector d s calls, ∀ a, r.Alert = some a → a.Query ≠ q) →
      (stateAfter d s calls).lastAlert q = s.lastAlert q := by
  intro calls
  induction calls with
  | nil => intro s _; rfl
  | cons c rest ih =>
    intro s hno
    have htail : (stateAfter d s (c :: rest)).lastAlert q =
        (stateAfter d (Record d s c.q c.t).2 rest).lastAlert q := rfl
    rw [htail, ih (Record d s c.q c.t).2
      (fun r hr a ha => hno r (by simp [runDetector]; exact Or.inr hr) a ha)]
    rcases hal : (Record d s c.q c.t).1.Alert with _ | a0
    · rw [Record_alert_none_lastAlert d s c.q c.t hal]
    · obtain ⟨haq, _, _⟩ := Record_alert_some d s c.q c.t a0 hal
      have hne : a0.Query ≠ q :=
        hno (Record d s c.q c.t).1 (by simp [runDetector]) a0 hal
      exact Record_lastAlert_other d s c.q q c.t (fun h => hne (haq.trans h.symm))

end detect

/-- Claim C4: once the detector has recorded an alert for template `q`
at time `t0` (`lastAlert q = some t0`, with `0 ≤ C`), (i) every
subsequent `Record` call for `q` whose timestamp is within the cooldown
(`t − t0 < C`) returns `alert = none`, matched or not; (ii) a matched
`Record(q, t)` with `C ≤ t − t0` carries `alert = some` again; and
(iii) the last-alert time is preserved by any run that raises no alert
for `q`, so (ii) applies to the first such matched call. -/
theorem C4_detect_cooldown (d : detect.Detector) (hC : 0 ≤ d.cooldown)
    (s : detect.DetectorState) (q : String) (t0 : Int)
    (hla : s.lastAlert q = some t0) :
    (∀ (calls : List detect.Call) (j : Nat) (hj : j < calls.length)
        (hj2 : j < (detect.runDetector d s calls).length),
      (calls.get ⟨j, hj⟩).q = q → (calls.get ⟨j, hj⟩).t - t0 < d.cooldown →
      ((detect.runDetector d s calls).get ⟨j, hj2⟩).Alert = none) ∧
    (∀ t : Int, (detect.Record d s q t).1.Matched = true → d.cooldown ≤ t - t0 →
      (detect.Record d s q t).1.Alert =
        some ⟨q, (detect.evict (s.queries q) (t - d.window) ++ [t]).length⟩) ∧
    (∀ calls : List detect.Call,
      (∀ r ∈ detect.runDetector d s calls, ∀ a, r.Alert = some a → a.Query ≠ q) →
      (detect.stateAfter d s calls).lastAlert q = some t0) := by
  refine ⟨?_, ?_, ?_⟩
  · intro calls j hj hj2 hq hlt
    rcases h : ((detect.runDetector d s calls).get ⟨j, hj2⟩).Alert with _ | a
    · rfl
    · have := detect.alert_time_bound d hC q calls s t0 hla j hj hj2 hq a h
      omega
  · intro t hm hge
    exact detect.Record_matched_after_cooldown d s q t t0 hla hge hm
  · intro calls hno
    rw [detect.lastAlert_preserved d q calls s hno, hla]

/-- Witness for C4 with threshold 1, window 10, cooldown 5 and a last
alert at time 0: a call at time 3 carries no alert; a matched call at
time 7 carries one. -/
theorem C4_detect_cooldown_witness :
    ((detect.runDetector ⟨1, 10, 5⟩
        ⟨fun _ => [], fun k => if k = "Q" then some 0 else none⟩
        [⟨"Q", 3⟩]).get ⟨0, by simp [detect.runDetector_length]⟩).Alert = none ∧
    (detect.Record ⟨1, 10, 5⟩
        ⟨fun _ => [], fun k => if k = "Q" then some 0 else none⟩ "Q" 7).1.Alert =
      some ⟨"Q", 1⟩ :=
  ⟨(C4_detect_cooldown ⟨1, 10, 5⟩ (by decide)
      ⟨fun _ => [], fun k => if k = "Q" then some 0 else none⟩ "Q" 0 rfl).1
      [⟨"Q", 3⟩] 0 (by simp) (by simp [detect.runDetector_length]) rfl (by decide),
   (C4_detect_cooldown ⟨1, 10, 5⟩ (by decide)
      ⟨fun _ => [], fun k => if k = "Q" then some 0 else none⟩ "Q" 0 rfl).2.1
      7 (by decide) (by decide)⟩

theorem txStep_begin (dd : Dialect) (c : TxState) (q : String) (op : proxy.Op)
    (h : isBeginQ dd q = true) :
    dialectDetectTx dd c q op =
      (⟨c.freshTx c.txCount, .Begin⟩,
       { c with activeTxID := c.freshTx c.txCount, txCount := c.txCount + 1 }) := by
  cases dd <;>
    simp only [isBeginQ, Bool.or_eq_true, Bool.and_eq_true, decide_eq_true_eq] at h
  · rcases h with h | ⟨h1, _⟩
    · simp [dialectDetectTx, postgres.detectTx, h]
    · simp at h1
  · rcases h with h | ⟨_, h⟩ <;> simp [dialectDetectTx, mysql.detectTx, h]

theorem isBeginQ_false_begin (dd : Dialect) (q : String) (hb : isBeginQ dd q = false) :
    strutil.startsWith (strutil.toUpper (strutil.trimSpace q)) "BEGIN" = false := by
  simp only [isBeginQ, Bool.or_eq_false_iff] at hb
  exact hb.1

theorem isBeginQ_false_start (q : String) (hb : isBeginQ .my q = false) :
    strutil.startsWith (strutil.toUpper (strutil.trimSpace q)) "START TRANSACTION"
      = false := by
  simp only [isBeginQ, Bool.or_eq_false_iff, Bool.and_eq_false_iff] at hb
  rcases hb.2 with h | h
  · simp at h
  · exact h

theorem txStep_commit (dd : Dialect) (c : TxState) (q : String) (op : proxy.Op)
    (hb : isBeginQ dd q = false) (hc : isCommitQ q = true) :
    dialectDetectTx dd c q op = (⟨c.activeTxID, .Commit⟩, { c with activeTxID := "" }) := by
  have h1 := isBeginQ_false_begin dd q hb
  simp only [isCommitQ] at hc
  cases dd
  · simp [dialectDetectTx, postgres.detectTx, h1, hc]
  · have h2 := isBeginQ_false_start q hb
    simp [dialectDetectTx, mysql.detectTx, h1, h2, hc]

theorem txStep_rollback (dd : Dialect) (c : TxState) (q : String) (op : proxy.Op)
    (hb : isBeginQ dd q = false) (hc : isCommitQ q = false) (hr : isRollbackQ q = true) :
    dialectDetectTx dd c q op =
      (⟨c.activeTxID, .Rollback⟩, { c with activeTxID := "" }) := by
  have h1 := isBeginQ_false_begin dd q hb
  simp only [isCommitQ] at hc
  simp only [isRollbackQ] at hr
  cases dd
  · simp [dialectDetectTx, postgres.detectTx, h1, hc, hr]
  · have h2 := isBeginQ_false_start q hb
    simp [dialectDetectTx, mysql.detectTx, h1, h2, hc, hr]

theorem txStep_default (dd : Dialect) (c : TxState) (q : String) (op : proxy.Op)
    (hb : isBeginQ dd q = false) (ht : isTermQ q = false) :
    dialectDetectTx dd c q op = (⟨c.activeTxID, op⟩, c) := by
  have h1 := isBeginQ_false_begin dd q hb
  simp only [isTermQ, Bool.or_eq_false_iff, isCommitQ, isRollbackQ] at ht
  cases dd
  · simp [dialectDetectTx, postgres.detectTx, h1, ht.1, ht.2]
  · have h2 := isBeginQ_false_start q hb
    simp [dialectDetectTx, mysql.detectTx, h1, h2, ht.1, ht.2]

theorem txRun_in_tx (dd : Dialect) :
    ∀ (l : List (String × proxy.Op)) (c : TxState),
      (∀ p ∈ l, isBeginQ dd p.1 = false ∧ isTermQ p.1 = false) →
      txRun dd c l = l.map (fun p => ⟨c.activeTxID, p.2⟩) ∧ txStateAfter dd c l = c := by
  intro l
  induction l with
  | nil => intro c _; exact ⟨rfl, rfl⟩
  | cons p rest ih =>
    intro c hall
    obtain ⟨q, op⟩ := p
    have hstep := txStep_default dd c q op (hall (q, op) (by simp)).1
      (hall (q, op) (by simp)).2
    have ihh := ih c (fun p hp => hall p (List.mem_cons_of_mem _ hp))
    constructor
    · simp only [txRun, hstep, List.map_cons, ihh.1]
    · simp only [txStateAfter, hstep, ihh.2]

theorem txRun_no_begin (dd : Dialect) :
    ∀ (l : List (String × proxy.Op)) (c : TxState),
      c.activeTxID = "" →
      (∀ p ∈ l, isBeginQ dd p.1 = false) →
      (∀ r ∈ txRun dd c l, r.txID = "") ∧
        (txStateAfter dd c l).activeTxID = "" := by
  intro l
  induction l with
  | nil => intro c hc _; exact ⟨by simp [txRun], hc⟩
  | cons p rest ih =>
    intro c hc hall
    obtain ⟨q, op⟩ := p
    have hb := hall (q, op) (by simp)
    have hrest := fun p hp => hall p (List.mem_cons_of_mem _ hp)
    by_cases hcm : isCommitQ q = true
    · have hstep := txStep_commit dd c q op hb hcm
      have ihh := ih { c with activeTxID := "" } rfl hrest
      refine ⟨?_, ?_⟩
      · intro r hr
        simp only [txRun, hstep, List.mem_cons] at hr
        rcases hr with hr | hr
        · simp [hr, hc]
        · exact ihh.1 r hr
      · simpa only [txStateAfter, hstep] using ihh.2
    · by_cases hrb : isRollbackQ q = true
      · have hstep := txStep_rollback dd c q op hb (by simpa using hcm) hrb
        have ihh := ih { c with activeTxID := "" } rfl hrest
        refine ⟨?_, ?_⟩
        · intro r hr
          simp only [txRun, hstep, List.mem_cons] at hr
          rcases hr with hr | hr
          · simp [hr, hc]
          · exact ihh.1 r hr
        · simpa only [txStateAfter, hstep] using ihh.2
      · have hstep := txStep_default dd c q op hb
          (by simp [isTermQ, Bool.or_eq_false_iff]; exact ⟨by simpa using hcm, by simpa using hrb⟩)
        have ihh := ih c hc hrest
        refine ⟨?_, ?_⟩
        · intro r hr
          simp only [txRun, hstep, List.mem_cons] at hr
          rcases hr with hr | hr
          · simp [hr, hc]
          · exact ihh.1 r hr
        · simpa only [txStateAfter, hstep] using ihh.2

theorem txStep_freshTx (dd : Dialect) (c : TxState) (q : String) (op : proxy.Op) :
    (dialectDetectTx dd c q op).2.freshTx = c.freshTx := by
  cases dd <;>
    simp only [dialectDetectTx, postgres.detectTx, mysql.detectTx] <;>
    split_ifs <;> rfl

theorem txStateAfter_freshTx (dd : Dialect) :
    ∀ (l : List (String × proxy.Op)) (c : TxState),
      (txStateAfter dd c l).freshTx = c.freshTx := by
  intro l
  induction l with
  | nil => intro c; rfl
  | cons p rest ih =>
    intro c
    obtain ⟨q, op⟩ := p
    simp only [txStateAfter, ih, txStep_freshTx]

/-- Claim C7: the transaction-id discipline of both interceptors'
`detectTx`.  With a fresh-id supply `f` that never yields `""`
(`uuid.New().String()` is never empty): a `BEGIN` (or, MySQL,
`START TRANSACTION`) event gets `Op = Begin` and a fresh nonempty
`TxID` which becomes the active id; every event issued between that
`Begin` and the next terminator carries exactly that active id with its
default op, the state unchanged; a `COMMIT`/`ROLLBACK` event repeats
the active id (empty when no `Begin` preceded) and clears it; on a
connection segment with no `Begin` and an empty active id every event
carries an empty `TxID`; and the fresh-id supply is never modified. -/
theorem C7_txid_discipline (dd : Dialect) (f : Nat → String) (hf : ∀ n, f n ≠ "") :
    (∀ (c : TxState) (q : String) (op : proxy.Op), c.freshTx = f →
      isBeginQ dd q = true →
      (dialectDetectTx dd c q op).1.op = .Begin ∧
      (dialectDetectTx dd c q op).1.txID ≠ "" ∧
      (dialectDetectTx dd c q op).2.activeTxID = (dialectDetectTx dd c q op).1.txID) ∧
    (∀ (c : TxState) (l : List (String × proxy.Op)),
      (∀ p ∈ l, isBeginQ dd p.1 = false ∧ isTermQ p.1 = false) →
      txRun dd c l = l.map (fun p => ⟨c.activeTxID, p.2⟩) ∧
      txStateAfter dd c l = c) ∧
    (∀ (c : TxState) (q : String) (op : proxy.Op),
      isBeginQ dd q = false → isTermQ q = true →
      (dialectDetectTx dd c q op).1.txID = c.activeTxID ∧
      (dialectDetectTx dd c q op).1.op =
        (if isCommitQ q then .Commit else .Rollback) ∧
      (dialectDetectTx dd c q op).2.activeTxID = "") ∧
    (∀ (c : TxState) (l : List (String × proxy.Op)),
      c.activeTxID = "" → (∀ p ∈ l, isBeginQ dd p.1 = false) →
      (∀ r ∈ txRun dd c l, r.txID = "") ∧
        (txStateAfter dd c l).activeTxID = "") ∧
    (∀ (c : TxState) (l : List (String × proxy.Op)),
      (txStateAfter dd c l).freshTx = c.freshTx) := by
  refine ⟨?_, fun c l h => txRun_in_tx dd l c h, ?_,
    fun c l hc hb => txRun_no_begin dd l c hc hb,
    fun c l => txStateAfter_freshTx dd l c⟩
  · intro c q op hfr hq
    rw [txStep_begin dd c q op hq]
    refine ⟨rfl, ?_, rfl⟩
    rw [hfr]
    exact hf c.txCount
  · intro c q op hb ht
    by_cases hcm : isCommitQ q = true
    · rw [txStep_commit dd c q op hb hcm]
      simp [hcm]
    · have hrb : isRollbackQ q = true := by
        simp only [isTermQ, Bool.or_eq_true] at ht
        rcases ht with ht | ht
        · exact absurd ht hcm
        · exact ht
      rw [txStep_rollback dd c q op hb (by simpa using hcm) hrb]
      simp [hcm]

/-- Witness for C7: a `BEGIN` on a fresh PostgreSQL connection opens a
transaction with the nonempty fresh id, and a `COMMIT` with no
preceding `BEGIN` carries an empty id. -/
theorem C7_txid_discipline_witness :
    ((dialectDetectTx .pg ⟨fun _ => "T", 0, ""⟩ "BEGIN" .Query).1.op = .Begin ∧
      (dialectDetectTx .pg ⟨fun _ => "T", 0, ""⟩ "BEGIN" .Query).1.txID ≠ "" ∧
      (dialectDetectTx .pg ⟨fun _ => "T", 0, ""⟩ "BEGIN" .Query).2.activeTxID =
        (dialectDetectTx .pg ⟨fun _ => "T", 0, ""⟩ "BEGIN" .Query).1.txID) ∧
    ((dialectDetectTx .pg ⟨fun _ => "T", 0, ""⟩ "COMMIT" .Query).1.txID = "" ∧
      (dialectDetectTx .pg ⟨fun _ => "T", 0, ""⟩ "COMMIT" .Query).1.op =
        (if isCommitQ "COMMIT" then .Commit else .Rollback) ∧
      (dialectDetectTx .pg ⟨fun _ => "T", 0, ""⟩ "COMMIT" .Query).2.activeTxID = "") :=
  ⟨(C7_txid_discipline .pg (fun _ => "T") (fun _ => (by decide : ("T" : String) ≠ ""))).1
      ⟨fun _ => "T", 0, ""⟩ "BEGIN" .Query rfl (by decide),
   (C7_txid_discipline .pg (fun _ => "T") (fun _ => (by decide : ("T" : String) ≠ ""))).2.2.1
      ⟨fun _ => "T", 0, ""⟩ "COMMIT" .Query (by decide) (by decide)⟩

/-! ### Idempotence of `Normalize` (C9): helper lemmas -/

namespace query

theorem normChars_nil (pB pS st : Bool) : normChars [] pB pS st = [] := rfl

theorem isSpace_cases {c : Char} (h : isSpace c = true) :
    c = ' ' ∨ c = '\t' ∨ c = '\n' ∨ c = '\r' := by
  simp only [isSpace, Bool.or_eq_true, decide_eq_true_eq] at h
  tauto

theorem isDigit_not_space {c : Char} (h : isDigit c = true) : isSpace c = false := by
  by_contra hs
  simp only [Bool.not_eq_false] at hs
  rcases isSpace_cases hs with rfl | rfl | rfl | rfl <;> exact absurd h (by decide)

theorem ne_space_of_isDigit {c : Char} (h : isDigit c = true) : c ≠ ' ' := by
  rintro rfl; exact absurd h (by decide)

theorem ne_quote_of_isDigit {c : Char} (h : isDigit c = true) : c ≠ '\'' := by
  rintro rfl; exact absurd h (by decide)

theorem decide_dollar_of_isDigit {c : Char} (h : isDigit c = true) :
    decide (c = '$') = false := by
  simp only [decide_eq_false_iff_not]
  rintro rfl; exact absurd h (by decide)

theorem isNumBoundary_false_of_isDigit {c : Char} (h : isDigit c = true) :
    isNumBoundary c = false := by
  by_contra hb
  simp only [Bool.not_eq_false] at hb
  simp only [isNumBoundary, Bool.or_eq_true, decide_eq_true_eq] at hb
  rcases hb with
    ((((((((((hb | rfl) | rfl) | rfl) | rfl) | rfl) | rfl) | rfl) | rfl) | rfl) | rfl) | rfl
  · rw [isDigit_not_space h] at hb; exact absurd hb (by decide)
  all_goals exact absurd h (by decide)

theorem not_space_char {c : Char} (h : isSpace c = false) : c ≠ ' ' := by
  rintro rfl; exact absurd h (by decide)

theorem notBoundary_not_space {c : Char} (h : isNumBoundary c = false) :
    isSpace c = false := by
  by_contra hs
  simp only [Bool.not_eq_false] at hs
  simp [isNumBoundary, hs] at h

theorem ne_quote_of_isSpace {c : Char} (h : isSpace c = true) : c ≠ '\'' := by
  rcases isSpace_cases h with rfl | rfl | rfl | rfl <;> decide

theorem decide_dollar_of_isSpace {c : Char} (h : isSpace c = true) :
    decide (c = '$') = false := by
  rcases isSpace_cases h with rfl | rfl | rfl | rfl <;> decide

theorem isDigit_false_of_isSpace {c : Char} (h : isSpace c = true) : isDigit c = false := by
  rcases isSpace_cases h with rfl | rfl | rfl | rfl <;> decide

theorem dropWhile_head_not (p : α → Bool) :
    ∀ (l : List α) (x : α), (l.dropWhile p).head? = some x → p x = false
  | [], x, h => by simp [List.dropWhile] at h
  | a :: l, x, h => by
    by_cases ha : p a
    · rw [List.dropWhile_cons_of_pos ha] at h
      exact dropWhile_head_not p l x h
    · rw [List.dropWhile_cons_of_neg ha] at h
      simp only [List.head?_cons, Option.some.injEq] at h
      subst h
      simpa using ha

theorem takeWhile_all_append (p : α → Bool) :
    ∀ (xs ys : List α), (∀ x ∈ xs, p x = true) →
      (∀ y, ys.head? = some y → p y = false) → (xs ++ ys).takeWhile p = xs
  | [], ys, _, hy => by
    cases ys with
    | nil => rfl
    | cons y ys' =>
      rw [List.nil_append, List.takeWhile_cons_of_neg (by simp [hy y rfl])]
  | x :: xs, ys, hx, hy => by
    rw [List.cons_append, List.takeWhile_cons_of_pos (hx x (by simp)),
      takeWhile_all_append p xs ys (fun a ha => hx a (by simp [ha])) hy]

theorem dropWhile_all_append (p : α → Bool) :
    ∀ (xs ys : List α), (∀ x ∈ xs, p x = true) →
      (∀ y, ys.head? = some y → p y = false) → (xs ++ ys).dropWhile p = ys
  | [], ys, _, hy => by
    cases ys with
    | nil => rfl
    | cons y ys' =>
      rw [List.nil_append, List.dropWhile_cons_of_neg (by simp [hy y rfl])]
  | x :: xs, ys, hx, hy => by
    rw [List.cons_append, List.dropWhile_cons_of_pos (hx x (by simp)),
      dropWhile_all_append p xs ys (fun a ha => hx a (by simp [ha])) hy]

theorem trimR_nil : trimRightSpaces [] = [] := rfl

theorem trimR_cons (x : Char) (l : List Char) :
    trimRightSpaces (x :: l) =
      if trimRightSpaces l = [] then (if x = ' ' then [] else [x])
      else x :: trimRightSpaces l := by
  by_cases h : l.reverse.dropWhile (· = ' ') = []
  · have ht : trimRightSpaces l = [] := by simp [trimRightSpaces, h]
    rw [if_pos ht]
    unfold trimRightSpaces
    rw [List.reverse_cons, List.dropWhile_append, if_pos (by simp [List.isEmpty_iff, h])]
    by_cases hx : x = ' '
    · subst hx; simp [List.dropWhile_cons]
    · simp [List.dropWhile_cons, hx]
  · have ht : trimRightSpaces l ≠ [] := by simp [trimRightSpaces, h]
    rw [if_neg ht]
    unfold trimRightSpaces
    rw [List.reverse_cons, List.dropWhile_append, if_neg (by simp [List.isEmpty_iff, h])]
    simp

theorem trimR_cons_ns {x : Char} (hx : x ≠ ' ') (l : List Char) :
    trimRightSpaces (x :: l) = x :: trimRightSpaces l := by
  rw [trimR_cons]
  by_cases h : trimRightSpaces l = []
  · rw [if_pos h, if_neg hx, h]
  · rw [if_neg h]

theorem trimR_eq_nil_iff (l : List Char) :
    trimRightSpaces l = [] ↔ ∀ x ∈ l, x = ' ' := by
  unfold trimRightSpaces
  rw [List.reverse_eq_nil_iff, List.dropWhile_eq_nil_iff]
  simp

theorem trimR_append_ns :
    ∀ (xs ys : List Char), (∀ x ∈ xs, x ≠ ' ') →
      trimRightSpaces (xs ++ ys) = xs ++ trimRightSpaces ys
  | [], ys, _ => by simp
  | x :: xs, ys, h => by
    rw [List.cons_append, trimR_cons_ns (h x (by simp)),
      trimR_append_ns xs ys (fun a ha => h a (by simp [ha])), List.cons_append]

theorem trimR_head (y : Char) (l : List Char) :
    trimRightSpaces (y :: l) = [] ∨ (trimRightSpaces (y :: l)).head? = some y := by
  rw [trimR_cons]
  by_cases h : trimRightSpaces l = []
  · rw [if_pos h]
    by_cases hy : y = ' '
    · rw [if_pos hy]; exact Or.inl rfl
    · rw [if_neg hy]; exact Or.inr rfl
  · rw [if_neg h]; exact Or.inr rfl

theorem dropWhile_idem (p : α → Bool) (l : List α) :
    (l.dropWhile p).dropWhile p = l.dropWhile p := by
  cases h : l.dropWhile p with
  | nil => rfl
  | cons a l' =>
    have ha : p a = false := dropWhile_head_not p l a (by rw [h]; rfl)
    rw [List.dropWhile_cons_of_neg (by simp [ha])]

theorem trimR_idem (l : List Char) :
    trimRightSpaces (trimRightSpaces l) = trimRightSpaces l := by
  unfold trimRightSpaces
  rw [List.reverse_reverse, dropWhile_idem]

theorem skipStringLit_cons_ne {c : Char} (hc : c ≠ '\'') (w : List Char) :
    skipStringLit (c :: w) = skipStringLit w := by
  conv_lhs => rw [skipStringLit.eq_def]
  rcases w with _ | ⟨d, w'⟩ <;> simp [hc]

theorem skipStringLit_quote {w : List Char} (hw : w.head? ≠ some '\'') :
    skipStringLit ('\'' :: w) = w := by
  conv_lhs => rw [skipStringLit.eq_def]
  rcases w with _ | ⟨d, w'⟩
  · simp
  · have hd : d ≠ '\'' := by simpa using hw
    simp [hd]

theorem skipStringLit_head : ∀ w : List Char, (skipStringLit w).head? ≠ some '\''
  | [] => by simp [skipStringLit]
  | '\'' :: '\'' :: rest => by
    simp only [skipStringLit]
    exact skipStringLit_head rest
  | c :: rest => by
    by_cases hc : c = '\''
    · subst hc
      match rest with
      | [] => simp [skipStringLit]
      | d :: rest' =>
        by_cases hd : d = '\''
        · subst hd
          simp only [skipStringLit]
          exact skipStringLit_head rest'
        · rw [skipStringLit_quote (by simpa using hd)]
          simp [hd]
    · rw [skipStringLit_cons_ne hc]
      exact skipStringLit_head rest

end query

namespace query

theorem normChars_cons_quote (w : List Char) (pB pS st : Bool) :
    normChars ('\'' :: w) pB pS st =
      '\'' :: '?' :: '\'' :: normChars (skipStringLit w) false false true := by
  rw [normChars_cons, if_pos rfl]

theorem normChars_cons_dollar {w : List Char} (hw : headIsDigit w = true) (pB pS st : Bool) :
    normChars ('$' :: w) pB pS st =
      '$' :: w.takeWhile isDigit ++ normChars (w.dropWhile isDigit) false false true := by
  rw [normChars_cons, if_neg (by decide), if_pos (by simp [hw])]

theorem normChars_cons_digit_some {c : Char} {w w2 : List Char} (hc : isDigit c = true)
    (hns : numScan w = some w2) (pS st : Bool) :
    normChars (c :: w) true pS st = '?' :: normChars w2 false false true := by
  rw [normChars_cons, if_neg (ne_quote_of_isDigit hc),
    if_neg (by simp [decide_dollar_of_isDigit hc]), if_pos (by simp [hc]), hns]

theorem normChars_cons_digit_none {c : Char} {w : List Char} (hc : isDigit c = true)
    (hns : numScan w = none) (pS st : Bool) :
    normChars (c :: w) true pS st = c :: normChars w false false true := by
  rw [normChars_cons, if_neg (ne_quote_of_isDigit hc),
    if_neg (by simp [decide_dollar_of_isDigit hc]), if_pos (by simp [hc]), hns,
    isNumBoundary_false_of_isDigit hc]

theorem normChars_cons_space_write {c : Char} (hc : isSpace c = true) (w : List Char)
    (pB : Bool) :
    normChars (c :: w) pB false true = ' ' :: normChars w true true true := by
  rw [normChars_cons, if_neg (ne_quote_of_isSpace hc),
    if_neg (by simp [decide_dollar_of_isSpace hc]),
    if_neg (by simp [isDigit_false_of_isSpace hc]), if_pos hc, if_pos (by rfl)]

theorem normChars_cons_space_skip {c : Char} (hc : isSpace c = true) (w : List Char)
    (pB st : Bool) :
    normChars (c :: w) pB true st = normChars w true true st := by
  rw [normChars_cons, if_neg (ne_quote_of_isSpace hc),
    if_neg (by simp [decide_dollar_of_isSpace hc]),
    if_neg (by simp [isDigit_false_of_isSpace hc]), if_pos hc, if_neg (by simp)]

theorem normChars_cons_space_skip2 {c : Char} (hc : isSpace c = true) (w : List Char)
    (pB pS : Bool) :
    normChars (c :: w) pB pS false = normChars w true pS false := by
  rw [normChars_cons, if_neg (ne_quote_of_isSpace hc),
    if_neg (by simp [decide_dollar_of_isSpace hc]),
    if_neg (by simp [isDigit_false_of_isSpace hc]), if_pos hc, if_neg (by simp)]

theorem normChars_cons_general {c : Char} {w : List Char} (hq : c ≠ '\'')
    (hdol : (decide (c = '$') && headIsDigit w) = false) (pB pS st : Bool)
    (hdig : (isDigit c && pB) = false) (hsp : isSpace c = false) :
    normChars (c :: w) pB pS st = c :: normChars w (isNumBoundary c) false true := by
  rw [normChars_cons, if_neg hq, if_neg (by simp [hdol]), if_neg (by simp [hdig]),
    if_neg (by simp [hsp])]

theorem digitdot_facts {d : Char} (hd : (isDigit d || d = '.') = true) :
    d ≠ '\'' ∧ decide (d = '$') = false ∧ isSpace d = false ∧
      isNumBoundary d = false ∧ d ≠ ' ' := by
  have hd' : isDigit d = true ∨ d = '.' := by simpa using hd
  rcases hd' with h | rfl
  · exact ⟨ne_quote_of_isDigit h, decide_dollar_of_isDigit h, isDigit_not_space h,
      isNumBoundary_false_of_isDigit h, ne_space_of_isDigit h⟩
  · exact ⟨by decide, by decide, by decide, by decide, by decide⟩

theorem numScan_none_decomp : ∀ l : List Char, numScan l = none →
    ∃ ds X w, l = ds ++ X :: w ∧ (∀ d ∈ ds, (isDigit d || d = '.') = true) ∧
      (isDigit X || X = '.') = false ∧ isNumBoundary X = false
  | [], h => by simp [numScan] at h
  | c :: rest, h => by
    by_cases h1 : (isDigit c || c = '.') = true
    · rw [show numScan (c :: rest) = numScan rest from by simp [numScan, h1]] at h
      obtain ⟨ds, X, w, hl, hds, hX, hb⟩ := numScan_none_decomp rest h
      refine ⟨c :: ds, X, w, by simp [hl], ?_, hX, hb⟩
      intro d hd
      rcases List.mem_cons.mp hd with rfl | hd
      · exact h1
      · exact hds d hd
    · by_cases h2 : isNumBoundary c = true
      · exfalso
        simp [numScan, h1, h2] at h
      · exact ⟨[], c, rest, rfl, by simp, by simpa using h1, by simpa using h2⟩

theorem numScan_append_none (Y : Char) (hY : (isDigit Y || Y = '.') = false)
    (hb : isNumBoundary Y = false) :
    ∀ (ds w : List Char), (∀ d ∈ ds, (isDigit d || d = '.') = true) →
      numScan (ds ++ Y :: w) = none
  | [], w, _ => by
    simp only [List.nil_append, numScan]
    rw [if_neg (by simp_all), if_neg (by simp [hb])]
  | d :: ds, w, hds => by
    rw [List.cons_append]
    have hstep : numScan (d :: (ds ++ Y :: w)) = numScan (ds ++ Y :: w) := by
      simp [numScan, hds d (by simp)]
    rw [hstep]
    exact numScan_append_none Y hY hb ds w (fun a ha => hds a (by simp [ha]))

theorem normChars_digits_append : ∀ (ds w : List Char),
    (∀ d ∈ ds, (isDigit d || d = '.') = true) →
    normChars (ds ++ w) false false true = ds ++ normChars w false false true
  | [], w, _ => by simp
  | d :: ds, w, h => by
    obtain ⟨hq, hdol, hsp, hnb, _⟩ := digitdot_facts (h d (by simp))
    rw [List.cons_append,
      normChars_cons_general hq (by simp [hdol]) false false true (by simp) hsp, hnb,
      normChars_digits_append ds w (fun a ha => h a (by simp [ha])), List.cons_append]

theorem normChars_head_cases (X : Char) (v2 : List Char) (pB : Bool) :
    ∃ Y tail, normChars (X :: v2) pB false true = Y :: tail ∧
      (Y = X ∨ (Y = '?' ∧ isDigit X = true) ∨ (Y = ' ' ∧ isSpace X = true)) := by
  by_cases hq : X = '\''
  · subst hq
    exact ⟨'\'', _, normChars_cons_quote v2 pB false true, Or.inl rfl⟩
  · by_cases hdol : (decide (X = '$') && headIsDigit v2) = true
    · obtain ⟨hX, hw⟩ : X = '$' ∧ headIsDigit v2 = true := by simpa using hdol
      subst hX
      exact ⟨'$', _, normChars_cons_dollar hw pB false true, Or.inl rfl⟩
    · by_cases hdig : (isDigit X && pB) = true
      · obtain ⟨hX, hpB⟩ : isDigit X = true ∧ pB = true := by simpa using hdig
        subst hpB
        cases hns : numScan v2 with
        | some w2 =>
          exact ⟨'?', _, normChars_cons_digit_some hX hns false true,
            Or.inr (Or.inl ⟨rfl, hX⟩)⟩
        | none =>
          exact ⟨X, _, normChars_cons_digit_none hX hns false true, Or.inl rfl⟩
      · by_cases hsp : isSpace X = true
        · exact ⟨' ', _, normChars_cons_space_write hsp v2 pB,
            Or.inr (Or.inr ⟨rfl, hsp⟩)⟩
        · exact ⟨X, _,
            normChars_cons_general hq (by simpa using hdol) pB false true
              (by simpa using hdig) (by simpa using hsp), Or.inl rfl⟩

theorem headIsDigit_head {l : List Char} {y : Char} (h : l.head? = some y) :
    headIsDigit l = isDigit y := by
  cases l with
  | nil => simp at h
  | cons a l' =>
    simp only [List.head?_cons, Option.some.injEq] at h
    subst h
    rfl

end query

namespace query

theorem numScan_trim_normChars {rest : List Char} (h : numScan rest = none) :
    numScan (trimRightSpaces (normChars rest false false true)) = none := by
  obtain ⟨ds, X, w, hl, hds, hX, hb⟩ := numScan_none_decomp rest h
  subst hl
  rw [normChars_digits_append ds (X :: w) hds]
  obtain ⟨Y, tail, hT, hY⟩ := normChars_head_cases X w false
  rw [hT]
  have hXdigit : isDigit X = false ∧ ¬X = '.' := by simpa using hX
  have hXsp : isSpace X = false := notBoundary_not_space hb
  have hYfacts : (isDigit Y || Y = '.') = false ∧ isNumBoundary Y = false := by
    rcases hY with rfl | ⟨rfl, hdX⟩ | ⟨rfl, hsX⟩
    · exact ⟨hX, hb⟩
    · exact absurd hdX (by simp [hXdigit.1])
    · exact absurd hsX (by simp [hXsp])
  have hdsns : ∀ x ∈ ds, x ≠ ' ' := fun x hx => (digitdot_facts (hds x hx)).2.2.2.2
  have hYns : Y ≠ ' ' := not_space_char (notBoundary_not_space hYfacts.2)
  rw [trimR_append_ns ds (Y :: tail) hdsns, trimR_cons_ns hYns]
  exact numScan_append_none Y hYfacts.1 hYfacts.2 ds (trimRightSpaces tail) hds

theorem normChars_prevSpace_head :
    ∀ (n : Nat) (v : List Char) (pB st : Bool) (y : Char) (tail : List Char),
      v.length ≤ n → normChars v pB true st = y :: tail → y ≠ ' '
  | _, [], _, _, _, _, _, h => by simp [normChars_nil] at h
  | 0, _ :: _, _, _, _, _, hlen, _ => by simp at hlen
  | n + 1, X :: v2, pB, st, y, tail, hlen, h => by
    by_cases hq : X = '\''
    · subst hq
      rw [normChars_cons_quote v2 pB true st] at h
      injection h with h1 _
      rw [← h1]; decide
    · by_cases hdol : (decide (X = '$') && headIsDigit v2) = true
      · obtain ⟨hX, hw⟩ : X = '$' ∧ headIsDigit v2 = true := by simpa using hdol
        subst hX
        rw [normChars_cons_dollar hw pB true st] at h
        injection h with h1 _
        rw [← h1]; decide
      · by_cases hdig : (isDigit X && pB) = true
        · obtain ⟨hX, hpB⟩ : isDigit X = true ∧ pB = true := by simpa using hdig
          subst hpB
          cases hns : numScan v2 with
          | some w2 =>
            rw [normChars_cons_digit_some hX hns true st] at h
            injection h with h1 _
            rw [← h1]; decide
          | none =>
            rw [normChars_cons_digit_none hX hns true st] at h
            injection h with h1 _
            rw [← h1]
            exact ne_space_of_isDigit hX
        · by_cases hsp : isSpace X = true
          · rw [normChars_cons_space_skip hsp v2 pB st] at h
            exact normChars_prevSpace_head n v2 true st y tail (by simpa using hlen) h
          · rw [normChars_cons_general hq (by simpa using hdol) pB true st
              (by simpa using hdig) (by simpa using hsp)] at h
            injection h with h1 _
            rw [← h1]
            exact not_space_char (by simpa using hsp)

theorem normChars_prevB_eq : ∀ {z : List Char},
    (∀ c w, z = c :: w → isDigit c = true → numScan w = none) → ∀ (pS st : Bool),
    normChars z true pS st = normChars z false pS st
  | [], _, _, _ => rfl
  | c :: w, h, pS, st => by
    by_cases hq : c = '\''
    · subst hq
      rw [normChars_cons_quote, normChars_cons_quote]
    · by_cases hdol : (decide (c = '$') && headIsDigit w) = true
      · obtain ⟨hc, hw⟩ : c = '$' ∧ headIsDigit w = true := by simpa using hdol
        subst hc
        rw [normChars_cons_dollar hw, normChars_cons_dollar hw]
      · by_cases hc : isDigit c = true
        · have hns : numScan w = none := h c w rfl hc
          rw [normChars_cons_digit_none hc hns,
            normChars_cons_general hq (by simpa using hdol) false pS st (by simp)
              (isDigit_not_space hc),
            isNumBoundary_false_of_isDigit hc]
        · have hc' : isDigit c = false := by simpa using hc
          by_cases hsp : isSpace c = true
          · cases pS with
            | true => rw [normChars_cons_space_skip hsp, normChars_cons_space_skip hsp]
            | false =>
              cases st with
              | true =>
                rw [normChars_cons_space_write hsp, normChars_cons_space_write hsp]
              | false =>
                rw [normChars_cons_space_skip2 hsp, normChars_cons_space_skip2 hsp]
          · rw [normChars_cons_general hq (by simpa using hdol) true pS st
              (by simp [hc']) (by simpa using hsp),
              normChars_cons_general hq (by simpa using hdol) false pS st (by simp)
                (by simpa using hsp)]

theorem outScan_trim :
    ∀ (n : Nat) (v : List Char) (pS st : Bool) (d : Char) (tl : List Char),
      v.length ≤ n → trimRightSpaces (normChars v true pS st) = d :: tl →
      isDigit d = true → numScan tl = none
  | _, [], _, _, _, _, _, h, _ => by simp [normChars_nil, trimR_nil] at h
  | 0, _ :: _, _, _, _, _, hlen, _, _ => by simp at hlen
  | n + 1, X :: v2, pS, st, d, tl, hlen, h, hd => by
    by_cases hq : X = '\''
    · subst hq
      rw [normChars_cons_quote v2 true pS st,
        trimR_cons_ns (show ('\'' : Char) ≠ ' ' from by decide),
        trimR_cons_ns (show ('?' : Char) ≠ ' ' from by decide),
        trimR_cons_ns (show ('\'' : Char) ≠ ' ' from by decide)] at h
      injection h with h1 _
      rw [← h1] at hd
      exact absurd hd (by decide)
    · by_cases hdol : (decide (X = '$') && headIsDigit v2) = true
      · obtain ⟨hX, hw⟩ : X = '$' ∧ headIsDigit v2 = true := by simpa using hdol
        subst hX
        rw [normChars_cons_dollar hw true pS st, List.cons_append,
          trimR_cons_ns (show ('$' : Char) ≠ ' ' from by decide)] at h
        injection h with h1 _
        rw [← h1] at hd
        exact absurd hd (by decide)
      · by_cases hX : isDigit X = true
        · cases hns : numScan v2 with
          | some w2 =>
            rw [normChars_cons_digit_some hX hns pS st,
              trimR_cons_ns (show ('?' : Char) ≠ ' ' from by decide)] at h
            injection h with h1 _
            rw [← h1] at hd
            exact absurd hd (by decide)
          | none =>
            rw [normChars_cons_digit_none hX hns pS st,
              trimR_cons_ns (ne_space_of_isDigit hX)] at h
            injection h with _ h2
            rw [← h2]
            exact numScan_trim_normChars hns
        · by_cases hsp : isSpace X = true
          · cases pS with
            | true =>
              rw [normChars_cons_space_skip hsp v2 true st] at h
              exact outScan_trim n v2 true st d tl (by simpa using hlen) h hd
            | false =>
              cases st with
              | true =>
                rw [normChars_cons_space_write hsp v2 true, trimR_cons] at h
                by_cases hT : trimRightSpaces (normChars v2 true true true) = []
                · rw [if_pos hT, if_pos rfl] at h
                  exact absurd h (by simp)
                · rw [if_neg hT] at h
                  injection h with h1 _
                  rw [← h1] at hd
                  exact absurd hd (by decide)
              | false =>
                rw [normChars_cons_space_skip2 hsp v2 true false] at h
                exact outScan_trim n v2 false false d tl (by simpa using hlen) h hd
          · have hX' : isDigit X = false := by simpa using hX
            rw [normChars_cons_general hq (by simpa using hdol) true pS st
              (by simp [hX']) (by simpa using hsp),
              trimR_cons_ns (not_space_char (by simpa using hsp))] at h
            injection h with h1 _
            rw [← h1] at hd
            rw [hX'] at hd
            exact absurd hd (by decide)

end query

namespace query

theorem trim_normChars_head_not_digit {u : List Char}
    (hu : ∀ X v2, u = X :: v2 → isDigit X = false) (pB : Bool) :
    ∀ y, (trimRightSpaces (normChars u pB false true)).head? = some y →
      isDigit y = false := by
  intro y hy
  cases u with
  | nil =>
    rw [normChars_nil, trimR_nil] at hy
    simp at hy
  | cons X v2 =>
    obtain ⟨Y, tail, hT, hY⟩ := normChars_head_cases X v2 pB
    rw [hT] at hy
    rcases trimR_head Y tail with he | he
    · rw [he] at hy; simp at hy
    · rw [he] at hy
      simp only [Option.some.injEq] at hy
      rcases hY with h2 | ⟨h2, _⟩ | ⟨h2, _⟩
      · rw [← hy, h2]
        exact hu X v2 rfl
      · rw [← hy, h2]
        decide
      · rw [← hy, h2]
        decide

theorem trim_normChars_head_not_quote {u : List Char}
    (hu : ∀ X v2, u = X :: v2 → X ≠ '\'') (pB : Bool) :
    (trimRightSpaces (normChars u pB false true)).head? ≠ some '\'' := by
  cases u with
  | nil =>
    rw [normChars_nil, trimR_nil]
    simp
  | cons X v2 =>
    obtain ⟨Y, tail, hT, hY⟩ := normChars_head_cases X v2 pB
    rw [hT]
    rcases trimR_head Y tail with he | he
    · rw [he]; simp
    · rw [he]
      simp only [ne_eq, Option.some.injEq]
      intro hcon
      rcases hY with rfl | ⟨rfl, _⟩ | ⟨rfl, _⟩
      · exact hu Y v2 rfl hcon
      · exact absurd hcon (by decide)
      · exact absurd hcon (by decide)

theorem headIsDigit_trim_normChars {u : List Char}
    (hu : ∀ X v2, u = X :: v2 → isDigit X = false) (pB : Bool) :
    headIsDigit (trimRightSpaces (normChars u pB false true)) = false := by
  cases he : trimRightSpaces (normChars u pB false true) with
  | nil => rfl
  | cons y tl =>
    exact trim_normChars_head_not_digit hu pB y (by rw [he]; rfl)

theorem normChars_trim_idem :
    ∀ (n : Nat) (l : List Char) (pB pS st : Bool), l.length ≤ n →
      normChars (trimRightSpaces (normChars l pB pS st)) pB pS st
        = trimRightSpaces (normChars l pB pS st) := by
  intro n
  induction n with
  | zero =>
    intro l pB pS st hl
    have hl0 : l = [] := List.length_eq_zero.mp (Nat.le_zero.mp hl)
    subst hl0
    rfl
  | succ m ih =>
    intro l pB pS st hl
    cases l with
    | nil => rfl
    | cons c rest =>
      have hrest : rest.length ≤ m := by simpa using hl
      by_cases hq : c = '\''
      · subst hq
        rw [normChars_cons_quote rest pB pS st,
          trimR_cons_ns (show ('\'' : Char) ≠ ' ' from by decide),
          trimR_cons_ns (show ('?' : Char) ≠ ' ' from by decide),
          trimR_cons_ns (show ('\'' : Char) ≠ ' ' from by decide),
          normChars_cons_quote]
        have hskip : skipStringLit ('?' :: '\'' ::
            trimRightSpaces (normChars (skipStringLit rest) false false true))
            = trimRightSpaces (normChars (skipStringLit rest) false false true) := by
          rw [skipStringLit_cons_ne (show ('?' : Char) ≠ '\'' from by decide)]
          apply skipStringLit_quote
          refine trim_normChars_head_not_quote ?_ false
          intro X v2 hXv
          have hh := skipStringLit_head rest
          rw [hXv] at hh
          simpa using hh
        rw [hskip, ih (skipStringLit rest) false false true
          (le_trans (skipStringLit_length_le rest) hrest)]
      · by_cases hdol : (decide (c = '$') && headIsDigit rest) = true
        · obtain ⟨hc2, hhd⟩ : c = '$' ∧ headIsDigit rest = true := by simpa using hdol
          subst hc2
          cases rest with
          | nil => simp [headIsDigit] at hhd
          | cons r rest' =>
            have hr : isDigit r = true := hhd
            have hds : ∀ x ∈ List.takeWhile isDigit (r :: rest'), isDigit x = true :=
              fun x hx => List.mem_takeWhile_imp hx
            have hdsns : ∀ x ∈ '$' :: List.takeWhile isDigit (r :: rest'), x ≠ ' ' := by
              intro x hx
              rcases List.mem_cons.mp hx with rfl | hx
              · decide
              · exact ne_space_of_isDigit (hds x hx)
            have huhead : ∀ X v2, List.dropWhile isDigit (r :: rest') = X :: v2 →
                isDigit X = false := by
              intro X v2 hXv
              exact dropWhile_head_not isDigit (r :: rest') X (by rw [hXv]; rfl)
            have hheadT := trim_normChars_head_not_digit huhead false
            rw [normChars_cons_dollar hhd pB pS st,
              trimR_append_ns ('$' :: List.takeWhile isDigit (r :: rest')) _ hdsns,
              List.cons_append]
            have hhd2 : headIsDigit (List.takeWhile isDigit (r :: rest') ++
                trimRightSpaces (normChars (List.dropWhile isDigit (r :: rest'))
                  false false true)) = true := by
              rw [List.takeWhile_cons_of_pos hr, List.cons_append]
              exact hr
            rw [normChars_cons_dollar hhd2 pB pS st,
              takeWhile_all_append isDigit _ _ hds hheadT,
              dropWhile_all_append isDigit _ _ hds hheadT,
              ih (List.dropWhile isDigit (r :: rest')) false false true
                (le_trans (dropWhile_length_le isDigit (r :: rest')) hrest),
              List.cons_append]
        · by_cases hdig : (isDigit c && pB) = true
          · obtain ⟨hc, hpB⟩ : isDigit c = true ∧ pB = true := by simpa using hdig
            subst hpB
            cases hns : numScan rest with
            | some rest2 =>
              rw [normChars_cons_digit_some hc hns pS st,
                trimR_cons_ns (show ('?' : Char) ≠ ' ' from by decide),
                normChars_cons_general (show ('?' : Char) ≠ '\'' from by decide)
                  (by rw [show decide (('?' : Char) = '$') = false from by decide,
                    Bool.false_and])
                  true pS st (by decide) (by decide),
                show isNumBoundary '?' = false from by decide,
                ih rest2 false false true
                  (le_trans (numScan_length_le rest rest2 hns) hrest)]
            | none =>
              rw [normChars_cons_digit_none hc hns pS st,
                trimR_cons_ns (ne_space_of_isDigit hc),
                normChars_cons_digit_none hc (numScan_trim_normChars hns) pS st,
                ih rest false false true hrest]
          · by_cases hsp : isSpace c = true
            · cases pS with
              | true =>
                rw [normChars_cons_space_skip hsp rest pB st]
                cases pB with
                | true => exact ih rest true true st hrest
                | false =>
                  have hz : ∀ d w,
                      trimRightSpaces (normChars rest true true st) = d :: w →
                      isDigit d = true → numScan w = none :=
                    fun d w hdw hd => outScan_trim m rest true st d w hrest hdw hd
                  rw [← normChars_prevB_eq hz true st]
                  exact ih rest true true st hrest
              | false =>
                cases st with
                | true =>
                  rw [normChars_cons_space_write hsp rest pB]
                  cases hT : normChars rest true true true with
                  | nil =>
                    rw [show trimRightSpaces [' '] = [] from by decide]
                    exact normChars_nil pB false true
                  | cons y tail =>
                    have hy : y ≠ ' ' :=
                      normChars_prevSpace_head m rest true true y tail hrest hT
                    have htne : trimRightSpaces (y :: tail) ≠ [] := by
                      rw [trimR_cons_ns hy]
                      simp
                    rw [trimR_cons, if_neg htne,
                      normChars_cons_space_write (show isSpace ' ' = true from by decide),
                      ← hT, ih rest true true true hrest]
                | false =>
                  rw [normChars_cons_space_skip2 hsp rest pB false]
                  cases pB with
                  | true => exact ih rest true false false hrest
                  | false =>
                    have hz : ∀ d w,
                        trimRightSpaces (normChars rest true false false) = d :: w →
                        isDigit d = true → numScan w = none :=
                      fun d w hdw hd => outScan_trim m rest false false d w hrest hdw hd
                    rw [← normChars_prevB_eq hz false false]
                    exact ih rest true false false hrest
            · have hdol' : (decide (c = '$') && headIsDigit rest) = false := by
                simpa using hdol
              have hdig' : (isDigit c && pB) = false := by simpa using hdig
              have hsp' : isSpace c = false := by simpa using hsp
              rw [normChars_cons_general hq hdol' pB pS st hdig' hsp',
                trimR_cons_ns (not_space_char hsp')]
              have hdol2 : (decide (c = '$') && headIsDigit (trimRightSpaces
                  (normChars rest (isNumBoundary c) false true))) = false := by
                by_cases hcd : c = '$'
                · subst hcd
                  have hrest0 : headIsDigit rest = false := by simpa using hdol'
                  have hu : ∀ X v2, rest = X :: v2 → isDigit X = false := by
                    intro X v2 hXv
                    rw [hXv] at hrest0
                    exact hrest0
                  rw [headIsDigit_trim_normChars hu (isNumBoundary '$'), Bool.and_false]
                · rw [show decide (c = '$') = false from by simp [hcd], Bool.false_and]
              rw [normChars_cons_general hq hdol2 pB pS st hdig' hsp',
                ih rest (isNumBoundary c) false true hrest]

end query

/-- **C9.** `Normalize` is idempotent: for every input string `s`,
`Normalize (Normalize s) = Normalize s`.  A second pass leaves the first
pass's output fixed: replaced string literals (`'?'`) re-skip to the same
point, `$N` parameters re-match, number replacements are already `?`, a
number scan that failed in the first pass still fails on the normalized
and trimmed remainder, collapsed whitespace stays collapsed, and trimming
trailing spaces is idempotent. -/
theorem C9_normalize_idempotent (s : String) :
    query.Normalize (query.Normalize s) = query.Normalize s := by
  by_cases h0 : s = ""
  · subst h0
    rfl
  · by_cases h2 : query.Normalize s = ""
    · rw [h2]
      rfl
    · have h1 : query.Normalize s =
          ⟨query.trimRightSpaces (query.normChars s.toList true false false)⟩ := by
        simp only [query.Normalize, if_neg h0]
      have h2' : (⟨query.trimRightSpaces (query.normChars s.toList true false false)⟩ :
          String) ≠ "" := by
        rw [← h1]
        exact h2
      have key : query.normChars (query.trimRightSpaces
          (query.normChars s.toList true false false)) true false false =
          query.trimRightSpaces (query.normChars s.toList true false false) :=
        query.normChars_trim_idem s.toList.length s.toList true false false (le_refl _)
      calc query.Normalize (query.Normalize s)
          = query.Normalize
              ⟨query.trimRightSpaces (query.normChars s.toList true false false)⟩ := by
            rw [h1]
        _ = ⟨query.trimRightSpaces (query.normChars (query.trimRightSpaces
              (query.normChars s.toList true false false)) true false false)⟩ := by
            simp only [query.Normalize, if_neg h2']
            rfl
        _ = ⟨query.trimRightSpaces (query.trimRightSpaces
              (query.normChars s.toList true false false))⟩ := by
            rw [key]
        _ = ⟨query.trimRightSpaces (query.normChars s.toList true false false)⟩ := by
            rw [query.trimR_idem]
        _ = query.Normalize s := h1.symm
